import Mathlib

/-!
Shallow embedding of the `noise` package (state.go part of the repository):
`CipherState`, `symmetricState`, `HandshakeState` and their operations.

Byte strings are modelled as `List Nat`; Go's `copy` into a fixed buffer is
modelled by `listCopy`.  Go panics are modelled by the `GoPanic` summand of
`NoiseOut`, returned errors by the `NoiseError` summand.  Mutating methods
become functions returning the updated state together with the outcome, so
that partial mutation before an error or panic is observable.

The `CipherSuite` and `Cipher` interfaces and the `hkdf` function are not
part of the given source file (they live in other files of the repository);
they are modelled from the spec, sections 4.4 and 6.
-/

/-- Byte strings of the Go code, as lists of naturals. -/
abbrev Bytes := List Nat

/-- Model of Go `copy(dst, src)`: the first `min |dst| |src|` entries of the
destination are overwritten by the corresponding entries of the source and
the rest of the destination is kept. -/
def listCopy (dst src : Bytes) : Bytes :=
  src.take (min dst.length src.length) ++ dst.drop (min dst.length src.length)

/-- The recoverable protocol errors returned by the noise package:
`ErrShortMessage` and the AEAD authentication failure. -/
inductive NoiseError where
  | ShortMessage : NoiseError
  | AuthFailed : NoiseError
deriving DecidableEq, Repr

/-- The distinct panic sites of the noise package. -/
inductive GoPanic where
  | copiedCipherState : GoPanic
  | unexpectedWrite : GoPanic
  | unexpectedRead : GoPanic
  | noMessagesLeft : GoPanic
  | msgTooLong : GoPanic
  | noStaticKey : GoPanic
  | rsNotNil : GoPanic
deriving DecidableEq, Repr

/-- Outcome of an operation: normal return, returned error, or Go panic. -/
inductive NoiseOut (α : Type) where
  | ok : α → NoiseOut α
  | err : NoiseError → NoiseOut α
  | fatal : GoPanic → NoiseOut α
deriving DecidableEq, Repr

/-- Modelled from the spec (section 3): a DH keypair of public and private
byte strings. -/
structure DHKey where
  Public : Bytes
  Private : Bytes
deriving DecidableEq, Repr

/-- Modelled from the spec (section 6): the AEAD contract.  `Encrypt` returns
the ciphertext-plus-16-byte-tag chunk that the Go implementation appends to
`out`; `Decrypt` returns `none` exactly when tag verification fails. -/
structure Cipher where
  Encrypt : Nat → Bytes → Bytes → Bytes
  Decrypt : Nat → Bytes → Bytes → Option Bytes

/-- Modelled from the spec (section 6): the CipherSuite contract.  The
streaming hash is modelled by its induced function on full inputs (Go's
`h.Write(a); h.Write(b); h.Sum(nil)` is `Hash (a ++ b)`), and the
randomness source by a counter fed to `GenerateKeypair`. -/
structure CipherSuite where
  Name : Bytes
  DHLen : Nat
  HashSize : Nat
  GenerateKeypair : Nat → DHKey
  DH : Bytes → Bytes → Bytes
  Hash : Bytes → Bytes
  Cipher : Bytes → Cipher

/-- Modelled from the spec (section 4.4): HMAC of the suite hash with the
standard 64-byte block padding, used only inside `hkdf`. -/
def hmacHash (hashF : Bytes → Bytes) (key msg : Bytes) : Bytes :=
  let key0 := if 64 < key.length then hashF key else key
  let key64 := listCopy (List.replicate 64 0) key0
  hashF ((key64.map (fun b => b ^^^ 92)) ++ hashF ((key64.map (fun b => b ^^^ 54)) ++ msg))

/-- Modelled from the spec (section 4.4): the two-output HKDF used by
`MixKey`, `MixPresharedKey` and `Split`; extract with the chaining key as
the HMAC key, then the standard two-step expand chain. -/
def hkdf (hashF : Bytes → Bytes) (chainingKey inputKeyMaterial : Bytes) : Bytes × Bytes :=
  let prk := hmacHash hashF chainingKey inputKeyMaterial
  let t1 := hmacHash hashF prk [1]
  let t2 := hmacHash hashF prk (t1 ++ [2])
  (t1, t2)

/-- The `CipherState` struct.  The Go struct also caches the AEAD instance
`c = cs.Cipher(k)`; every write to `k` in the source is immediately followed
by re-initialising `c` from it, so the cache is re-derived from `k` here. -/
structure CipherState where
  k : Bytes
  n : Nat
  invalid : Bool
deriving DecidableEq, Repr

/-- A fresh zero-valued `CipherState` (Go zero value: zero 32-byte key,
nonce 0, valid). -/
def CipherState.zero : CipherState := { k := List.replicate 32 0, n := 0, invalid := false }

/-- `CipherState.Encrypt`: panics if the state was invalidated, otherwise
appends the AEAD output for the current nonce and increments the (64-bit,
wrapping) nonce. -/
def CipherState.Encrypt (cs : CipherSuite) (s : CipherState) (out ad plaintext : Bytes) :
    CipherState × NoiseOut Bytes :=
  if s.invalid then (s, .fatal .copiedCipherState)
  else
    ({ s with n := (s.n + 1) % 2 ^ 64 },
      .ok (out ++ (cs.Cipher s.k).Encrypt s.n ad plaintext))

/-- `CipherState.Decrypt`: panics if the state was invalidated; otherwise
attempts AEAD open at the current nonce, incrementing the nonce whether or
not the tag verifies, and returns the authentication error on failure. -/
def CipherState.Decrypt (cs : CipherSuite) (s : CipherState) (out ad ciphertext : Bytes) :
    CipherState × NoiseOut Bytes :=
  if s.invalid then (s, .fatal .copiedCipherState)
  else
    match (cs.Cipher s.k).Decrypt s.n ad ciphertext with
    | some plaintext => ({ s with n := (s.n + 1) % 2 ^ 64 }, .ok (out ++ plaintext))
    | none => ({ s with n := (s.n + 1) % 2 ^ 64 }, .err .AuthFailed)

/-- `CipherState.Cipher`: latches the `invalid` flag and hands out the raw
AEAD primitive. -/
def CipherState.Cipher (cs : CipherSuite) (s : CipherState) :=
  ({ s with invalid := true }, cs.Cipher s.k)

/-- The `symmetricState` struct: an embedded `CipherState` plus the
handshake hash `h`, chaining key `ck` and the `hasK`/`hasPSK` flags. -/
structure symmetricState where
  cst : CipherState
  hasK : Bool
  hasPSK : Bool
  ck : Bytes
  h : Bytes
deriving DecidableEq, Repr

/-- A fresh zero-valued `symmetricState`. -/
def symmetricState.zero : symmetricState :=
  { cst := CipherState.zero, hasK := false, hasPSK := false, ck := [], h := [] }

/-- `symmetricState.InitializeSymmetric`: a short handshake name is copied
into a fresh zero buffer of the hash size (so zeros are appended after it);
a long one is hashed.  The chaining key is then a copy of `h`. -/
def symmetricState.InitializeSymmetric (cs : CipherSuite) (s : symmetricState)
    (handshakeName : Bytes) : symmetricState :=
  let h :=
    if handshakeName.length ≤ cs.HashSize then
      listCopy (List.replicate cs.HashSize 0) handshakeName
    else cs.Hash handshakeName
  { s with h := h, ck := h }

/-- `symmetricState.MixHash`: absorb data into the handshake hash. -/
def symmetricState.MixHash (cs : CipherSuite) (s : symmetricState) (data : Bytes) :
    symmetricState :=
  { s with h := cs.Hash (s.h ++ data) }

/-- `symmetricState.MixKey`: reset the nonce, set `hasK`, derive the new
chaining key and cipher key by HKDF.  Go copies the second HKDF output into
the fixed 32-byte key array, which `listCopy` models. -/
def symmetricState.MixKey (cs : CipherSuite) (s : symmetricState) (dhOutput : Bytes) :
    symmetricState :=
  let hk := hkdf cs.Hash s.ck dhOutput
  { s with
      cst := { k := listCopy s.cst.k hk.2, n := 0, invalid := s.cst.invalid },
      hasK := true,
      ck := hk.1 }

/-- `symmetricState.MixPresharedKey`: re-key the chaining key from the PSK
and absorb the second HKDF output into the handshake hash. -/
def symmetricState.MixPresharedKey (cs : CipherSuite) (s : symmetricState)
    (presharedKey : Bytes) : symmetricState :=
  let hk := hkdf cs.Hash s.ck presharedKey
  let s1 := { s with ck := hk.1 }
  { s1.MixHash cs hk.2 with hasPSK := true }

/-- `symmetricState.EncryptAndHash`: without a key, absorb the plaintext and
append it in the clear; with a key, append the AEAD chunk (associated data
is the current `h`) and absorb exactly the appended on-wire bytes. -/
def symmetricState.EncryptAndHash (cs : CipherSuite) (s : symmetricState)
    (out plaintext : Bytes) : symmetricState × NoiseOut Bytes :=
  if s.hasK = false then (s.MixHash cs plaintext, .ok (out ++ plaintext))
  else
    match CipherState.Encrypt cs s.cst out s.h plaintext with
    | (cst1, .ok ciphertext) =>
      (symmetricState.MixHash cs { s with cst := cst1 } (ciphertext.drop out.length),
        .ok ciphertext)
    | (cst1, .err e) => ({ s with cst := cst1 }, .err e)
    | (cst1, .fatal p) => ({ s with cst := cst1 }, .fatal p)

/-- `symmetricState.DecryptAndHash`: the dual of `EncryptAndHash`; the
handshake hash absorbs the on-wire bytes, and only after a successful
decryption. -/
def symmetricState.DecryptAndHash (cs : CipherSuite) (s : symmetricState)
    (out data : Bytes) : symmetricState × NoiseOut Bytes :=
  if s.hasK = false then (s.MixHash cs data, .ok (out ++ data))
  else
    match CipherState.Decrypt cs s.cst out s.h data with
    | (cst1, .ok plaintext) =>
      (symmetricState.MixHash cs { s with cst := cst1 } data, .ok plaintext)
    | (cst1, .err e) => ({ s with cst := cst1 }, .err e)
    | (cst1, .fatal p) => ({ s with cst := cst1 }, .fatal p)

/-- `symmetricState.Split`: derive the two transport cipher states from the
chaining key; both start with nonce 0 and a key copied into a fresh zero
32-byte array. -/
def symmetricState.Split (cs : CipherSuite) (s : symmetricState) :
    CipherState × CipherState :=
  let hk := hkdf cs.Hash s.ck []
  ({ k := listCopy (List.replicate 32 0) hk.1, n := 0, invalid := false },
    { k := listCopy (List.replicate 32 0) hk.2, n := 0, invalid := false })

/-- The six message-pattern tokens. -/
inductive MessagePattern where
  | S : MessagePattern
  | E : MessagePattern
  | DHEE : MessagePattern
  | DHES : MessagePattern
  | DHSE : MessagePattern
  | DHSS : MessagePattern
deriving DecidableEq, Repr

/-- The `HandshakePattern` struct; the Go `Name` string is a byte list. -/
structure HandshakePattern where
  Name : Bytes
  InitiatorPreMessages : List MessagePattern
  ResponderPreMessages : List MessagePattern
  Messages : List (List MessagePattern)
deriving DecidableEq, Repr

/-- `MaxMsgLen`, the maximum size of a Noise message. -/
def MaxMsgLen : Nat := 65535

/-- The `HandshakeState` struct.  The randomness source is a counter that is
advanced every time an ephemeral keypair is generated. -/
structure HandshakeState where
  ss : symmetricState
  s : DHKey
  e : DHKey
  rs : Bytes
  re : Bytes
  messagePatterns : List (List MessagePattern)
  shouldWrite : Bool
  msgIdx : Nat
  rng : Nat
deriving DecidableEq, Repr

/-- The `Config` struct (the cipher suite is passed separately to every
operation instead of being stored). -/
structure Config where
  Random : Nat
  Pattern : HandshakePattern
  Initiator : Bool
  Prologue : Bytes
  PresharedKey : Bytes
  StaticKeypair : DHKey
  EphemeralKeypair : DHKey
  PeerStatic : Bytes
  PeerEphemeral : Bytes
deriving DecidableEq, Repr

/-- ASCII bytes of the handshake name prefix for patterns without a PSK. -/
def noisePrefix : Bytes := [78, 111, 105, 115, 101, 95]

/-- ASCII bytes of the handshake name prefix for patterns with a PSK. -/
def noisePSKPrefix : Bytes := [78, 111, 105, 115, 101, 80, 83, 75, 95]

/-- The loop of `NewHandshakeState` over the initiator pre-messages: the
initiator mixes its own public keys, the responder the configured remote
ones; tokens other than `S` and `E` are skipped by the switch. -/
def preMessagesInit (cs : CipherSuite) (initiator : Bool) :
    List MessagePattern → HandshakeState → HandshakeState
  | [], hs => hs
  | m :: rest, hs =>
    let hs1 :=
      match m, initiator with
      | .S, true => { hs with ss := hs.ss.MixHash cs hs.s.Public }
      | .E, true => { hs with ss := hs.ss.MixHash cs hs.e.Public }
      | .S, false => { hs with ss := hs.ss.MixHash cs hs.rs }
      | .E, false => { hs with ss := hs.ss.MixHash cs hs.re }
      | _, _ => hs
    preMessagesInit cs initiator rest hs1

/-- The loop of `NewHandshakeState` over the responder pre-messages, with
the roles of the previous loop reversed. -/
def preMessagesResp (cs : CipherSuite) (initiator : Bool) :
    List MessagePattern → HandshakeState → HandshakeState
  | [], hs => hs
  | m :: rest, hs =>
    let hs1 :=
      match m, initiator with
      | .S, false => { hs with ss := hs.ss.MixHash cs hs.s.Public }
      | .E, false => { hs with ss := hs.ss.MixHash cs hs.e.Public }
      | .S, true => { hs with ss := hs.ss.MixHash cs hs.rs }
      | .E, true => { hs with ss := hs.ss.MixHash cs hs.re }
      | _, _ => hs
    preMessagesResp cs initiator rest hs1

/-- `NewHandshakeState`: build the fresh handshake state, initialise the
symmetric state with the full handshake name, mix prologue and optional PSK
and then the pre-message public keys.  Go copies `PeerEphemeral` only when
it is non-empty, which equals using it directly. -/
def NewHandshakeState (cs : CipherSuite) (c : Config) : HandshakeState :=
  let name :=
    (if 0 < c.PresharedKey.length then noisePSKPrefix else noisePrefix) ++
      c.Pattern.Name ++ [95] ++ cs.Name
  let ss1 := symmetricState.zero.InitializeSymmetric cs name
  let ss2 := ss1.MixHash cs c.Prologue
  let ss3 := if 0 < c.PresharedKey.length then ss2.MixPresharedKey cs c.PresharedKey else ss2
  let hs : HandshakeState :=
    { ss := ss3
      s := c.StaticKeypair
      e := c.EphemeralKeypair
      rs := c.PeerStatic
      re := c.PeerEphemeral
      messagePatterns := c.Pattern.Messages
      shouldWrite := c.Initiator
      msgIdx := 0
      rng := c.Random }
  preMessagesResp cs c.Initiator c.Pattern.ResponderPreMessages
    (preMessagesInit cs c.Initiator c.Pattern.InitiatorPreMessages hs)

/-- The token loop of `WriteMessage`, processing the tokens of the current
message in order and accumulating the on-wire bytes. -/
def writeTokens (cs : CipherSuite) :
    List MessagePattern → HandshakeState → Bytes → HandshakeState × NoiseOut Bytes
  | [], s, out => (s, .ok out)
  | .E :: rest, s, out =>
    let e := cs.GenerateKeypair s.rng
    let s1 := { s with e := e, rng := s.rng + 1 }
    let ss1 := s1.ss.MixHash cs e.Public
    let ss2 := if ss1.hasPSK then ss1.MixKey cs e.Public else ss1
    writeTokens cs rest { s1 with ss := ss2 } (out ++ e.Public)
  | .S :: rest, s, out =>
    if s.s.Public.length = 0 then (s, .fatal .noStaticKey)
    else
      match symmetricState.EncryptAndHash cs s.ss out s.s.Public with
      | (ss1, .ok out1) => writeTokens cs rest { s with ss := ss1 } out1
      | (ss1, .err e) => ({ s with ss := ss1 }, .err e)
      | (ss1, .fatal p) => ({ s with ss := ss1 }, .fatal p)
  | .DHEE :: rest, s, out =>
    writeTokens cs rest { s with ss := s.ss.MixKey cs (cs.DH s.e.Private s.re) } out
  | .DHES :: rest, s, out =>
    writeTokens cs rest { s with ss := s.ss.MixKey cs (cs.DH s.e.Private s.rs) } out
  | .DHSE :: rest, s, out =>
    writeTokens cs rest { s with ss := s.ss.MixKey cs (cs.DH s.s.Private s.re) } out
  | .DHSS :: rest, s, out =>
    writeTokens cs rest { s with ss := s.ss.MixKey cs (cs.DH s.s.Private s.rs) } out

/-- `HandshakeState.WriteMessage`: precondition panics, token loop, flip of
`shouldWrite` and bump of `msgIdx`, payload encryption and, on the final
message, `Split`.  Go's bound check `msgIdx > len-1` over machine integers
is `len ≤ msgIdx`. -/
def HandshakeState.WriteMessage (cs : CipherSuite) (s : HandshakeState)
    (out payload : Bytes) :
    HandshakeState × NoiseOut (Bytes × Option (CipherState × CipherState)) :=
  if s.shouldWrite = false then (s, .fatal .unexpectedWrite)
  else if s.messagePatterns.length ≤ s.msgIdx then (s, .fatal .noMessagesLeft)
  else if MaxMsgLen < payload.length then (s, .fatal .msgTooLong)
  else
    match writeTokens cs (s.messagePatterns.getD s.msgIdx []) s out with
    | (s1, .ok out1) =>
      let s2 := { s1 with shouldWrite := false, msgIdx := s1.msgIdx + 1 }
      match symmetricState.EncryptAndHash cs s2.ss out1 payload with
      | (ss1, .ok out2) =>
        let s3 := { s2 with ss := ss1 }
        if s3.messagePatterns.length ≤ s3.msgIdx then
          (s3, .ok (out2, some (s3.ss.Split cs)))
        else (s3, .ok (out2, none))
      | (ss1, .err e) => ({ s2 with ss := ss1 }, .err e)
      | (ss1, .fatal p) => ({ s2 with ss := ss1 }, .fatal p)
    | (s1, .err e) => (s1, .err e)
    | (s1, .fatal p) => (s1, .fatal p)

/-- The token loop of `ReadMessage`: for `E` and `S` the required on-wire
length is checked before any processing of the token; the consumed bytes
are dropped from the message.  Returns the unconsumed remainder. -/
def readTokens (cs : CipherSuite) :
    List MessagePattern → HandshakeState → Bytes → HandshakeState × NoiseOut Bytes
  | [], s, message => (s, .ok message)
  | .E :: rest, s, message =>
    if message.length < cs.DHLen then (s, .err .ShortMessage)
    else
      let re := message.take cs.DHLen
      let s1 := { s with re := re }
      let ss1 := s1.ss.MixHash cs re
      let ss2 := if ss1.hasPSK then ss1.MixKey cs re else ss1
      readTokens cs rest { s1 with ss := ss2 } (message.drop cs.DHLen)
  | .S :: rest, s, message =>
    let expected := cs.DHLen + if s.ss.hasK then 16 else 0
    if message.length < expected then (s, .err .ShortMessage)
    else if 0 < s.rs.length then (s, .fatal .rsNotNil)
    else
      match symmetricState.DecryptAndHash cs s.ss [] (message.take expected) with
      | (ss1, .ok rs1) =>
        readTokens cs rest { s with ss := ss1, rs := rs1 } (message.drop expected)
      | (ss1, .err e) => ({ s with ss := ss1 }, .err e)
      | (ss1, .fatal p) => ({ s with ss := ss1 }, .fatal p)
  | .DHEE :: rest, s, message =>
    readTokens cs rest { s with ss := s.ss.MixKey cs (cs.DH s.e.Private s.re) } message
  | .DHES :: rest, s, message =>
    readTokens cs rest { s with ss := s.ss.MixKey cs (cs.DH s.s.Private s.re) } message
  | .DHSE :: rest, s, message =>
    readTokens cs rest { s with ss := s.ss.MixKey cs (cs.DH s.e.Private s.rs) } message
  | .DHSS :: rest, s, message =>
    readTokens cs rest { s with ss := s.ss.MixKey cs (cs.DH s.s.Private s.rs) } message

/-- `HandshakeState.ReadMessage`: precondition panics, token loop, flip of
`shouldWrite` and bump of `msgIdx`, then decryption of the remaining bytes
as the payload and, on the final message, `Split`.  The flags are advanced
before the payload is decrypted, exactly as in the source. -/
def HandshakeState.ReadMessage (cs : CipherSuite) (s : HandshakeState)
    (out message : Bytes) :
    HandshakeState × NoiseOut (Bytes × Option (CipherState × CipherState)) :=
  if s.shouldWrite = true then (s, .fatal .unexpectedRead)
  else if s.messagePatterns.length ≤ s.msgIdx then (s, .fatal .noMessagesLeft)
  else
    match readTokens cs (s.messagePatterns.getD s.msgIdx []) s message with
    | (s1, .ok rest) =>
      let s2 := { s1 with shouldWrite := true, msgIdx := s1.msgIdx + 1 }
      match symmetricState.DecryptAndHash cs s2.ss out rest with
      | (ss1, .ok out1) =>
        let s3 := { s2 with ss := ss1 }
        if s3.messagePatterns.length ≤ s3.msgIdx then
          (s3, .ok (out1, some (s3.ss.Split cs)))
        else (s3, .ok (out1, none))
      | (ss1, .err e) => ({ s2 with ss := ss1 }, .err e)
      | (ss1, .fatal p) => ({ s2 with ss := ss1 }, .fatal p)
    | (s1, .err e) => (s1, .err e)
    | (s1, .fatal p) => (s1, .fatal p)

/-- One round of the alternating handshake: the writer emits a message with
the given payload into an empty buffer and the reader consumes it; `none`
on any panic or returned error. -/
def handshakeRound (cs : CipherSuite) (w r : HandshakeState) (payload : Bytes) :
    Option (HandshakeState × HandshakeState × Bytes ×
      Option (CipherState × CipherState) × Option (CipherState × CipherState)) :=
  match w.WriteMessage cs [] payload with
  | (w1, .ok (msg, sw)) =>
    match r.ReadMessage cs [] msg with
    | (r1, .ok (pl, sr)) => some (w1, r1, pl, sw, sr)
    | _ => none
  | _ => none

/-- Alternate `WriteMessage`/`ReadMessage` between two handshake states, one
payload per message, swapping the writer role after each round.  Returns
the final writer-side and reader-side states, the two `Split` results they
returned on the last message, and the payloads the reader recovered. -/
def runAll (cs : CipherSuite) :
    List Bytes → HandshakeState → HandshakeState →
    Option (HandshakeState × HandshakeState ×
      Option (CipherState × CipherState) × Option (CipherState × CipherState) ×
      List Bytes)
  | [], w, r => some (w, r, none, none, [])
  | p :: ps, w, r =>
    match handshakeRound cs w r p with
    | some (w1, r1, pl, sw, sr) =>
      match ps with
      | [] => some (w1, r1, sw, sr, [pl])
      | q :: qs =>
        match runAll cs (q :: qs) r1 w1 with
        | some (wf, rf, s1, s2, pls) => some (wf, rf, s1, s2, pl :: pls)
        | none => none
    | none => none

/-- The number of on-wire bytes that the tokens of a message require from a
received message, tracking how `hasK` evolves during the token loop: a DH
token sets it, an `E` token sets it exactly when a PSK is in use, and an
encrypted `S` token carries a 16-byte tag. -/
def reqLen (cs : CipherSuite) :
    List MessagePattern → Bool → Bool → Nat
  | [], _, _ => 0
  | .E :: rest, hasK, hasPSK => cs.DHLen + reqLen cs rest (hasK || hasPSK) hasPSK
  | .S :: rest, hasK, hasPSK =>
    (cs.DHLen + if hasK then 16 else 0) + reqLen cs rest hasK hasPSK
  | .DHEE :: rest, _, hasPSK => reqLen cs rest true hasPSK
  | .DHES :: rest, _, hasPSK => reqLen cs rest true hasPSK
  | .DHSE :: rest, _, hasPSK => reqLen cs rest true hasPSK
  | .DHSS :: rest, _, hasPSK => reqLen cs rest true hasPSK

/-- A small byte-valued compression used by the executable toy hash. -/
def toyFold (xs : Bytes) : Nat :=
  xs.foldl (fun a b => (a * 31 + b * 7 + 3) % 251) 5

/-- An executable toy hash of output size 1, used to instantiate the
abstract cipher suite on concrete inputs. -/
def toyHash (xs : Bytes) : Bytes := [toyFold xs]

/-- The tag of the executable toy AEAD: 16 equal bytes compressing key,
nonce, associated data and ciphertext. -/
def toyTag (k : Bytes) (n : Nat) (ad ct : Bytes) : Bytes :=
  List.replicate 16 ((k ++ n % 256 :: ad ++ ct).foldl (fun a b => (a * 131 + b + 1) % 255) 9)

/-- The executable toy AEAD: the ciphertext is the plaintext itself followed
by the 16-byte tag; decryption recomputes and checks the tag. -/
def toyCipher (k : Bytes) : Cipher :=
  { Encrypt := fun n ad pt => pt ++ toyTag k n ad pt
    Decrypt := fun n ad ct =>
      if ct.length < 16 then none
      else if ct.drop (ct.length - 16) = toyTag k n ad (ct.take (ct.length - 16)) then
        some (ct.take (ct.length - 16))
      else none }

/-- The executable toy DH function: sum of all bytes of both arguments,
reduced mod 256, so that it is symmetric whenever each keypair has equal
public and private halves. -/
def toyDH (a b : Bytes) : Bytes := [(a.sum + b.sum) % 256]

/-- The executable toy keypair generator: a 2-byte key whose public and
private halves coincide and encode the randomness counter. -/
def toyGen (n : Nat) : DHKey :=
  { Public := [n % 256, n / 256 % 256], Private := [n % 256, n / 256 % 256] }

/-- The executable toy cipher suite (DH length 2, hash size 1). -/
def toySuite : CipherSuite :=
  { Name := [1, 2, 3]
    DHLen := 2
    HashSize := 1
    GenerateKeypair := toyGen
    DH := toyDH
    Hash := toyHash
    Cipher := toyCipher }

/-- A toy keypair is valid when its public half equals its private half. -/
def toyValid (x : DHKey) : Prop := x.Public = x.Private

/-- A second toy hash, of output size 4, used where the padding behaviour
of `InitializeSymmetric` must be visible. -/
def toyHash4 (xs : Bytes) : Bytes := [toyFold xs, 17, 34, 51]

/-- A toy suite with hash size 4 for the `InitializeSymmetric` claims. -/
def toySuite4 : CipherSuite :=
  { toySuite with HashSize := 4, Hash := toyHash4 }

/-- Definition following the spec words of claim C4 (handshake name
left-padded with zeros to the hash size), for comparison with the code. -/
def leftPadZeros (n : Nat) (xs : Bytes) : Bytes :=
  List.replicate (n - xs.length) 0 ++ xs

/-- Copying a short list into a zero buffer appends zeros after it. -/
theorem listCopy_replicate_zero (n : Nat) (xs : Bytes) (h : xs.length ≤ n) :
    listCopy (List.replicate n 0) xs = xs ++ List.replicate (n - xs.length) 0 := by
  unfold listCopy
  have hmin : min (List.replicate n (0 : Nat)).length xs.length = xs.length := by
    simp [List.length_replicate, Nat.min_eq_right h]
  rw [hmin, List.take_of_length_le (le_refl _), List.drop_replicate]

/-- C2: for a valid CipherState, `Decrypt` appends the authenticated
plaintext to `out` and increments the 64-bit nonce exactly when the AEAD
tag verifies; when verification fails it returns the authentication error,
the nonce being incremented either way. -/
theorem c2_decrypt_iff_tag_ok (cs : CipherSuite) (s : CipherState) (out ad ct : Bytes)
    (hinv : s.invalid = false) :
    CipherState.Decrypt cs s out ad ct =
      match (cs.Cipher s.k).Decrypt s.n ad ct with
      | some pt => ({ s with n := (s.n + 1) % 2 ^ 64 }, .ok (out ++ pt))
      | none => ({ s with n := (s.n + 1) % 2 ^ 64 }, .err .AuthFailed) := by
  unfold CipherState.Decrypt
  rw [hinv]
  simp

/-- Witness for C2 at the toy suite: decryption of a well-formed toy AEAD
chunk appends the plaintext and bumps the nonce, and decryption of garbage
returns the authentication error with the nonce also bumped. -/
theorem c2_decrypt_iff_tag_ok_witness :
    CipherState.Decrypt toySuite CipherState.zero [9] []
        ((toySuite.Cipher CipherState.zero.k).Encrypt 0 [] [5]) =
      ({ CipherState.zero with n := (0 + 1) % 2 ^ 64 }, .ok ([9] ++ [5])) ∧
    CipherState.Decrypt toySuite CipherState.zero [9] [] [1, 2, 3] =
      ({ CipherState.zero with n := (0 + 1) % 2 ^ 64 }, .err .AuthFailed) := by
  constructor
  · rw [c2_decrypt_iff_tag_ok toySuite CipherState.zero [9] [] _ rfl]
    have h : (toySuite.Cipher CipherState.zero.k).Decrypt 0 []
        ((toySuite.Cipher CipherState.zero.k).Encrypt 0 [] [5]) = some [5] := by decide
    simp only [CipherState.zero] at h ⊢
    rw [h]
  · rw [c2_decrypt_iff_tag_ok toySuite CipherState.zero [9] [] _ rfl]
    have h : (toySuite.Cipher CipherState.zero.k).Decrypt 0 [] [1, 2, 3] = none := by decide
    simp only [CipherState.zero] at h ⊢
    rw [h]

/-- C7: `Cipher()` latches the `invalid` flag and returns the raw AEAD, and
any subsequent `Encrypt` or `Decrypt` on the returned state panics without
touching the state. -/
theorem c7_cipher_invalidates (cs : CipherSuite) (s : CipherState) (out ad data : Bytes) :
    (CipherState.Cipher cs s).1.invalid = true ∧
    (CipherState.Cipher cs s).2 = cs.Cipher s.k ∧
    CipherState.Encrypt cs (CipherState.Cipher cs s).1 out ad data =
      ((CipherState.Cipher cs s).1, .fatal .copiedCipherState) ∧
    CipherState.Decrypt cs (CipherState.Cipher cs s).1 out ad data =
      ((CipherState.Cipher cs s).1, .fatal .copiedCipherState) := by
  refine ⟨rfl, rfl, ?_, ?_⟩ <;> simp [CipherState.Cipher, CipherState.Encrypt, CipherState.Decrypt]

/-- Counterexample for C4: with hash size 4 and handshake name `[1, 2]`,
the code sets `h` to the name with zeros appended (`[1, 2, 0, 0]`), which
differs from the name left-padded with zeros (`[0, 0, 1, 2]`) stated by the
claim. -/
theorem c4_counterexample :
    (symmetricState.zero.InitializeSymmetric toySuite4 [1, 2]).h = [1, 2, 0, 0] ∧
    leftPadZeros toySuite4.HashSize [1, 2] = [0, 0, 1, 2] ∧
    (symmetricState.zero.InitializeSymmetric toySuite4 [1, 2]).h ≠
      leftPadZeros toySuite4.HashSize [1, 2] := by
  decide

/-- C4 (amended): `InitializeSymmetric` sets `h` to the handshake name with
zeros appended up to the hash size when the name is short enough, and to
its hash otherwise; `ck` is then set equal to `h` and no cipher key is set. -/
theorem c4_initialize_symmetric (cs : CipherSuite) (s : symmetricState) (name : Bytes)
    (hk : s.hasK = false) :
    (name.length ≤ cs.HashSize →
      (s.InitializeSymmetric cs name).h = name ++ List.replicate (cs.HashSize - name.length) 0) ∧
    (cs.HashSize < name.length → (s.InitializeSymmetric cs name).h = cs.Hash name) ∧
    (s.InitializeSymmetric cs name).ck = (s.InitializeSymmetric cs name).h ∧
    (s.InitializeSymmetric cs name).hasK = false := by
  unfold symmetricState.InitializeSymmetric
  refine ⟨fun hle => ?_, fun hlt => ?_, ?_, ?_⟩
  · simp only [if_pos hle]
    exact listCopy_replicate_zero cs.HashSize name hle
  · simp only [if_neg (Nat.not_le.mpr hlt)]
  · rfl
  · exact hk

/-- Witness for C4 at the toy suite of hash size 4: a short name gets zeros
appended, a long name gets hashed, `ck` equals `h`, and `hasK` stays unset. -/
theorem c4_initialize_symmetric_witness :
    (symmetricState.zero.InitializeSymmetric toySuite4 [1, 2]).h =
      [1, 2] ++ List.replicate (toySuite4.HashSize - [1, 2].length) 0 ∧
    (symmetricState.zero.InitializeSymmetric toySuite4 [9, 9, 9, 9, 9]).h =
      toySuite4.Hash [9, 9, 9, 9, 9] ∧
    (symmetricState.zero.InitializeSymmetric toySuite4 [1, 2]).ck =
      (symmetricState.zero.InitializeSymmetric toySuite4 [1, 2]).h ∧
    (symmetricState.zero.InitializeSymmetric toySuite4 [1, 2]).hasK = false := by
  have h1 := c4_initialize_symmetric toySuite4 symmetricState.zero [1, 2] rfl
  have h2 := c4_initialize_symmetric toySuite4 symmetricState.zero [9, 9, 9, 9, 9] rfl
  exact ⟨h1.1 (by decide), h2.2.1 (by decide), h1.2.2.1, h1.2.2.2⟩

/-- C5: without a key, `EncryptAndHash` mixes the plaintext into `h` and
appends it in the clear; with a key it encrypts with associated data equal
to the current `h`, appends ciphertext plus tag, and mixes exactly the
appended ciphertext bytes into `h`.  `DecryptAndHash` is the dual and in
both directions `h` absorbs the on-wire bytes, never a recovered
plaintext. -/
theorem c5_encrypt_decrypt_and_hash (cs : CipherSuite) (s : symmetricState)
    (out pt data : Bytes) (hinv : s.cst.invalid = false) :
    (s.hasK = false →
      s.EncryptAndHash cs out pt =
        ({ s with h := cs.Hash (s.h ++ pt) }, .ok (out ++ pt))) ∧
    (s.hasK = true →
      s.EncryptAndHash cs out pt =
        ({ s with
            cst := { s.cst with n := (s.cst.n + 1) % 2 ^ 64 },
            h := cs.Hash (s.h ++ (cs.Cipher s.cst.k).Encrypt s.cst.n s.h pt) },
          .ok (out ++ (cs.Cipher s.cst.k).Encrypt s.cst.n s.h pt))) ∧
    (s.hasK = false →
      s.DecryptAndHash cs out data =
        ({ s with h := cs.Hash (s.h ++ data) }, .ok (out ++ data))) ∧
    (s.hasK = true →
      s.DecryptAndHash cs out data =
        match (cs.Cipher s.cst.k).Decrypt s.cst.n s.h data with
        | some pt2 =>
          ({ s with
              cst := { s.cst with n := (s.cst.n + 1) % 2 ^ 64 },
              h := cs.Hash (s.h ++ data) },
            .ok (out ++ pt2))
        | none =>
          ({ s with cst := { s.cst with n := (s.cst.n + 1) % 2 ^ 64 } },
            .err .AuthFailed)) := by
  refine ⟨fun hk => ?_, fun hk => ?_, fun hk => ?_, fun hk => ?_⟩
  · simp [symmetricState.EncryptAndHash, symmetricState.MixHash, hk]
  · simp only [symmetricState.EncryptAndHash, hk]
    simp [CipherState.Encrypt, hinv, symmetricState.MixHash, List.drop_left]
  · simp [symmetricState.DecryptAndHash, symmetricState.MixHash, hk]
  · simp only [symmetricState.DecryptAndHash, hk]
    simp only [CipherState.Decrypt, hinv, Bool.false_eq_true, if_false]
    cases hdec : (cs.Cipher s.cst.k).Decrypt s.cst.n s.h data <;>
      simp [symmetricState.MixHash]

/-- Witness for C5 at the toy suite: all four cases evaluated on concrete
states, one without and one with a key. -/
theorem c5_encrypt_decrypt_and_hash_witness :
    (symmetricState.zero.EncryptAndHash toySuite [9] [5] =
      ({ symmetricState.zero with h := toySuite.Hash ([] ++ [5]) }, .ok ([9] ++ [5]))) ∧
    (({ symmetricState.zero with hasK := true }).EncryptAndHash toySuite [9] [5] =
      ({ { symmetricState.zero with hasK := true } with
          cst := { CipherState.zero with n := (0 + 1) % 2 ^ 64 },
          h := toySuite.Hash ([] ++
            (toySuite.Cipher CipherState.zero.k).Encrypt 0 [] [5]) },
        .ok ([9] ++ (toySuite.Cipher CipherState.zero.k).Encrypt 0 [] [5]))) := by
  have h0 := c5_encrypt_decrypt_and_hash toySuite symmetricState.zero [9] [5] [] rfl
  have h1 := c5_encrypt_decrypt_and_hash toySuite
    { symmetricState.zero with hasK := true } [9] [5] [] rfl
  exact ⟨h0.1 rfl, h1.2.1 rfl⟩

/-- C9: a `DecryptAndHash` whose AEAD verification fails leaves `h` and
`ck` unchanged while the underlying nonce has been incremented by the
failed `Decrypt`. -/
theorem c9_failed_decrypt_preserves_h_ck (cs : CipherSuite) (s : symmetricState)
    (out data : Bytes) (hk : s.hasK = true) (hinv : s.cst.invalid = false)
    (hfail : (cs.Cipher s.cst.k).Decrypt s.cst.n s.h data = none) :
    s.DecryptAndHash cs out data =
      ({ s with cst := { s.cst with n := (s.cst.n + 1) % 2 ^ 64 } },
        .err .AuthFailed) ∧
    (s.DecryptAndHash cs out data).1.h = s.h ∧
    (s.DecryptAndHash cs out data).1.ck = s.ck ∧
    (s.DecryptAndHash cs out data).1.cst.n = (s.cst.n + 1) % 2 ^ 64 := by
  have heq : s.DecryptAndHash cs out data =
      ({ s with cst := { s.cst with n := (s.cst.n + 1) % 2 ^ 64 } }, .err .AuthFailed) := by
    simp only [symmetricState.DecryptAndHash, hk]
    simp [CipherState.Decrypt, hinv, hfail]
  rw [heq]
  exact ⟨rfl, rfl, rfl, rfl⟩

/-- Witness for C9 at the toy suite: a garbage ciphertext fails to verify
and leaves `h` and `ck` of a keyed symmetric state unchanged while the
nonce advances. -/
theorem c9_failed_decrypt_preserves_h_ck_witness :
    ({ symmetricState.zero with hasK := true, h := [7], ck := [8] }).DecryptAndHash
        toySuite [] [1, 2, 3] =
      ({ { symmetricState.zero with hasK := true, h := [7], ck := [8] } with
          cst := { CipherState.zero with n := (0 + 1) % 2 ^ 64 } },
        .err .AuthFailed) ∧
    (({ symmetricState.zero with hasK := true, h := [7], ck := [8] }).DecryptAndHash
        toySuite [] [1, 2, 3]).1.h = [7] ∧
    (({ symmetricState.zero with hasK := true, h := [7], ck := [8] }).DecryptAndHash
        toySuite [] [1, 2, 3]).1.ck = [8] ∧
    (({ symmetricState.zero with hasK := true, h := [7], ck := [8] }).DecryptAndHash
        toySuite [] [1, 2, 3]).1.cst.n = (0 + 1) % 2 ^ 64 := by
  exact c9_failed_decrypt_preserves_h_ck toySuite
    { symmetricState.zero with hasK := true, h := [7], ck := [8] } [] [1, 2, 3]
    rfl rfl (by decide)

/-- C6: any violation of the `WriteMessage` preconditions (it must be this
peer's turn to write, handshake messages must remain, and the payload must
be at most `MaxMsgLen` bytes) panics, leaving the state untouched. -/
theorem c6_write_message_preconditions (cs : CipherSuite) (s : HandshakeState)
    (out payload : Bytes)
    (hviol : ¬(s.shouldWrite = true ∧ s.msgIdx < s.messagePatterns.length ∧
      payload.length ≤ MaxMsgLen)) :
    ∃ p, s.WriteMessage cs out payload = (s, .fatal p) := by
  unfold HandshakeState.WriteMessage
  by_cases hw : s.shouldWrite = false
  · exact ⟨.unexpectedWrite, by rw [if_pos hw]⟩
  · have hw' : s.shouldWrite = true := by
      cases h : s.shouldWrite
      · exact absurd h hw
      · rfl
    rw [if_neg hw]
    by_cases hidx : s.messagePatterns.length ≤ s.msgIdx
    · exact ⟨.noMessagesLeft, by rw [if_pos hidx]⟩
    · rw [if_neg hidx]
      by_cases hpay : MaxMsgLen < payload.length
      · exact ⟨.msgTooLong, by rw [if_pos hpay]⟩
      · exact absurd ⟨hw', Nat.not_le.mp hidx, Nat.not_lt.mp hpay⟩ hviol

/-- Witness for C6: calling `WriteMessage` out of turn on a concrete state
panics. -/
theorem c6_write_message_preconditions_witness :
    ∃ p,
      HandshakeState.WriteMessage toySuite
        { ss := symmetricState.zero, s := ⟨[], []⟩, e := ⟨[], []⟩, rs := [], re := [],
          messagePatterns := [[.E]], shouldWrite := false, msgIdx := 0, rng := 0 }
        [] [] =
      ({ ss := symmetricState.zero, s := ⟨[], []⟩, e := ⟨[], []⟩, rs := [], re := [],
          messagePatterns := [[.E]], shouldWrite := false, msgIdx := 0, rng := 0 },
        .fatal p) := by
  exact c6_write_message_preconditions toySuite _ [] [] (by simp)

/-- The token loop of `ReadMessage` never touches `shouldWrite`, `msgIdx`
or the pattern list; those advance only after all tokens succeed. -/
theorem readTokens_frame (cs : CipherSuite) (ts : List MessagePattern) :
    ∀ s m, (readTokens cs ts s m).1.shouldWrite = s.shouldWrite ∧
      (readTokens cs ts s m).1.msgIdx = s.msgIdx ∧
      (readTokens cs ts s m).1.messagePatterns = s.messagePatterns := by
  induction ts with
  | nil => exact fun s m => ⟨rfl, rfl, rfl⟩
  | cons t rest ih =>
    intro s m
    cases t <;> simp only [readTokens]
    case S =>
      split
      all_goals
        split
        · exact ⟨rfl, rfl, rfl⟩
        · split
          · exact ⟨rfl, rfl, rfl⟩
          · split <;> try exact ⟨rfl, rfl, rfl⟩
            exact ih _ _
    case E =>
      split
      · exact ⟨rfl, rfl, rfl⟩
      · exact ih _ _
    case DHEE => exact ih _ _
    case DHES => exact ih _ _
    case DHSE => exact ih _ _
    case DHSS => exact ih _ _

/-- Processing a concatenation of token lists is processing the first list
and, when it succeeds, the second on the remaining bytes. -/
theorem readTokens_append (cs : CipherSuite) (pre ts : List MessagePattern) :
    ∀ s m, readTokens cs (pre ++ ts) s m =
      match readTokens cs pre s m with
      | (s1, .ok rest) => readTokens cs ts s1 rest
      | (s1, .err e) => (s1, .err e)
      | (s1, .fatal p) => (s1, .fatal p) := by
  induction pre with
  | nil => exact fun s m => rfl
  | cons t rest ih =>
    intro s m
    cases t <;> simp only [List.cons_append, readTokens]
    case S =>
      split
      all_goals
        split
        · rfl
        · split
          · rfl
          · split <;> try rfl
            exact ih _ _
    case E =>
      split
      · rfl
      · exact ih _ _
    case DHEE => exact ih _ _
    case DHES => exact ih _ _
    case DHSE => exact ih _ _
    case DHSS => exact ih _ _

/-- C10: when `ReadMessage` reaches an `S` token (after the earlier tokens
of the message succeeded and the length pre-check for the token passes)
while the remote static `rs` is already non-empty, it panics instead of
overwriting `rs` or returning an error. -/
theorem c10_read_s_token_rs_not_nil (cs : CipherSuite) (s : HandshakeState)
    (out message : Bytes) (pre post : List MessagePattern) (s1 : HandshakeState)
    (rest : Bytes)
    (hw : s.shouldWrite = false)
    (hidx : s.msgIdx < s.messagePatterns.length)
    (htok : s.messagePatterns.getD s.msgIdx [] = pre ++ .S :: post)
    (hpre : readTokens cs pre s message = (s1, .ok rest))
    (hlen : cs.DHLen + (if s1.ss.hasK then 16 else 0) ≤ rest.length)
    (hrs : s1.rs ≠ []) :
    s.ReadMessage cs out message = (s1, .fatal .rsNotNil) := by
  unfold HandshakeState.ReadMessage
  rw [if_neg (by rw [hw]; exact Bool.false_ne_true), if_neg (Nat.not_le.mpr hidx), htok,
    readTokens_append, hpre]
  have hstep : readTokens cs (.S :: post) s1 rest = (s1, .fatal .rsNotNil) := by
    simp only [readTokens]
    rw [if_neg (Nat.not_lt.mpr hlen), if_pos (List.length_pos.mpr hrs)]
  simp only [hstep]

/-- A one-message pattern transmitting only the sender static, used to
witness C10. -/
def sPattern : HandshakePattern :=
  { Name := [83], InitiatorPreMessages := [], ResponderPreMessages := [],
    Messages := [[.S]] }

/-- A responder configuration for `sPattern` that also pre-configures the
peer static key, so that `rs` is non-empty when the `S` token arrives. -/
def cfgS_B : Config :=
  { Random := 200, Pattern := sPattern, Initiator := false, Prologue := [],
    PresharedKey := [], StaticKeypair := ⟨[5, 6], [5, 6]⟩, EphemeralKeypair := ⟨[], []⟩,
    PeerStatic := [9, 9], PeerEphemeral := [] }

/-- Witness for C10: with `PeerStatic` supplied and a message carrying an
`S` token, `ReadMessage` panics. -/
theorem c10_read_s_token_rs_not_nil_witness :
    (NewHandshakeState toySuite cfgS_B).ReadMessage toySuite [] [3, 4] =
      (NewHandshakeState toySuite cfgS_B, .fatal .rsNotNil) := by
  exact c10_read_s_token_rs_not_nil toySuite (NewHandshakeState toySuite cfgS_B)
    [] [3, 4] [] [] (NewHandshakeState toySuite cfgS_B) [3, 4]
    (by decide) (by decide) (by decide) rfl (by decide) (by decide)

/-- C8: if the token loop of `ReadMessage` succeeds but decrypting the
final payload fails, the returned error is accompanied by a state that has
already flipped `shouldWrite` and advanced `msgIdx` past the failed
message. -/
theorem c8_read_error_after_advance (cs : CipherSuite) (s : HandshakeState)
    (out message rest : Bytes) (s1 : HandshakeState) (e : NoiseError)
    (hw : s.shouldWrite = false)
    (hidx : s.msgIdx < s.messagePatterns.length)
    (htok : readTokens cs (s.messagePatterns.getD s.msgIdx []) s message = (s1, .ok rest))
    (hfail : (symmetricState.DecryptAndHash cs s1.ss out rest).2 = .err e) :
    ∃ s2, s.ReadMessage cs out message = (s2, .err e) ∧
      s2.shouldWrite = true ∧ s2.msgIdx = s.msgIdx + 1 := by
  have hframe := readTokens_frame cs (s.messagePatterns.getD s.msgIdx []) s message
  rw [htok] at hframe
  unfold HandshakeState.ReadMessage
  rw [if_neg (by rw [hw]; exact Bool.false_ne_true), if_neg (Nat.not_le.mpr hidx), htok]
  rcases hDH : symmetricState.DecryptAndHash cs s1.ss out rest with ⟨ss1, r⟩
  rw [hDH] at hfail
  simp only at hfail
  subst hfail
  simp only [hDH]
  exact ⟨_, rfl, rfl, by rw [show s1.msgIdx = s.msgIdx from hframe.2.1]⟩

/-- The NN handshake pattern. -/
def nnPattern : HandshakePattern :=
  { Name := [78, 78], InitiatorPreMessages := [], ResponderPreMessages := [],
    Messages := [[.E], [.E, .DHEE]] }

/-- Initiator configuration for the NN pattern over the toy suite. -/
def cfgNN_A : Config :=
  { Random := 100, Pattern := nnPattern, Initiator := true, Prologue := [],
    PresharedKey := [], StaticKeypair := ⟨[], []⟩, EphemeralKeypair := ⟨[], []⟩,
    PeerStatic := [], PeerEphemeral := [] }

/-- Responder configuration matching `cfgNN_A`. -/
def cfgNN_B : Config := { cfgNN_A with Random := 200, Initiator := false }

/-- The initiator state after writing the first NN message. -/
def nnA1 : HandshakeState :=
  ((NewHandshakeState toySuite cfgNN_A).WriteMessage toySuite [] [1]).1

/-- The first NN handshake message. -/
def nnMsg1 : Bytes :=
  match ((NewHandshakeState toySuite cfgNN_A).WriteMessage toySuite [] [1]).2 with
  | .ok (m, _) => m
  | _ => []

/-- The responder state after reading the first NN message. -/
def nnB1 : HandshakeState :=
  ((NewHandshakeState toySuite cfgNN_B).ReadMessage toySuite [] nnMsg1).1

/-- The second NN handshake message. -/
def nnMsg2 : Bytes :=
  match (nnB1.WriteMessage toySuite [] [2]).2 with
  | .ok (m, _) => m
  | _ => []

/-- The second NN handshake message with its last byte tampered. -/
def nnMsg2bad : Bytes := nnMsg2.dropLast ++ [(nnMsg2.getLast?.getD 0 + 1) % 256]

/-- The token-loop result on the tampered second NN message. -/
def nnTok : HandshakeState × NoiseOut Bytes :=
  readTokens toySuite (nnA1.messagePatterns.getD nnA1.msgIdx []) nnA1 nnMsg2bad

/-- The bytes left over after the token loop on the tampered message. -/
def nnTokRest : Bytes :=
  match nnTok.2 with
  | .ok r => r
  | _ => []

set_option maxRecDepth 100000 in
/-- Witness for C8: the tampered second NN message is rejected with the
authentication error, yet the receiving state has flipped `shouldWrite` and
advanced `msgIdx`. -/
theorem c8_read_error_after_advance_witness :
    ∃ s2, nnA1.ReadMessage toySuite [] nnMsg2bad = (s2, .err .AuthFailed) ∧
      s2.shouldWrite = true ∧ s2.msgIdx = nnA1.msgIdx + 1 := by
  exact c8_read_error_after_advance toySuite nnA1 [] nnMsg2bad nnTokRest nnTok.1
    .AuthFailed (by decide) (by decide) (by decide) (by decide)

/-- The first component returned by `CipherState.Decrypt` is either the
input state (panic) or the input state with the nonce advanced. -/
theorem cipherDecrypt_fst (cs : CipherSuite) (s : CipherState) (out ad ct : Bytes) :
    (CipherState.Decrypt cs s out ad ct).1 = s ∨
    (CipherState.Decrypt cs s out ad ct).1 = { s with n := (s.n + 1) % 2 ^ 64 } := by
  unfold CipherState.Decrypt
  by_cases hi : s.invalid
  · rw [if_pos hi]
    exact Or.inl rfl
  · rw [if_neg hi]
    cases hopt : (cs.Cipher s.k).Decrypt s.n ad ct <;> simp [hopt]

/-- The only returned error of `CipherState.Decrypt` is the authentication
failure. -/
theorem cipherDecrypt_err (cs : CipherSuite) (s : CipherState) (out ad ct : Bytes)
    (e : NoiseError) (h : (CipherState.Decrypt cs s out ad ct).2 = .err e) :
    e = .AuthFailed := by
  unfold CipherState.Decrypt at h
  by_cases hi : s.invalid
  · rw [if_pos hi] at h
    exact absurd h (by simp)
  · rw [if_neg hi] at h
    cases hopt : (cs.Cipher s.k).Decrypt s.n ad ct <;> rw [hopt] at h <;> simp at h
    exact h.symm

/-- On a valid cipher state, `CipherState.Decrypt` never panics. -/
theorem cipherDecrypt_no_fatal (cs : CipherSuite) (s : CipherState) (out ad ct : Bytes)
    (p : GoPanic) (hinv : s.invalid = false) :
    (CipherState.Decrypt cs s out ad ct).2 ≠ .fatal p := by
  unfold CipherState.Decrypt
  rw [hinv]
  simp only [Bool.false_eq_true, if_false]
  cases hopt : (cs.Cipher s.k).Decrypt s.n ad ct <;> simp

/-- `DecryptAndHash` never changes the `hasK`/`hasPSK` flags or the
`invalid` latch of the embedded cipher state. -/
theorem decryptAndHash_flags (cs : CipherSuite) (s : symmetricState) (out data : Bytes) :
    (s.DecryptAndHash cs out data).1.hasK = s.hasK ∧
    (s.DecryptAndHash cs out data).1.hasPSK = s.hasPSK ∧
    (s.DecryptAndHash cs out data).1.cst.invalid = s.cst.invalid := by
  unfold symmetricState.DecryptAndHash
  split
  · exact ⟨rfl, rfl, rfl⟩
  · rcases hD : CipherState.Decrypt cs s.cst out s.h data with ⟨cst1, r⟩
    have hfst := cipherDecrypt_fst cs s.cst out s.h data
    rw [hD] at hfst
    have hi : cst1.invalid = s.cst.invalid := by
      rcases hfst with hh | hh <;> simp only at hh <;> rw [hh]
    cases r <;> simp [symmetricState.MixHash, hi]

/-- The only returned error of `DecryptAndHash` is the authentication
failure. -/
theorem decryptAndHash_err (cs : CipherSuite) (s : symmetricState) (out data : Bytes)
    (e : NoiseError) (h : (s.DecryptAndHash cs out data).2 = .err e) :
    e = .AuthFailed := by
  unfold symmetricState.DecryptAndHash at h
  split at h
  · exact absurd h (by simp)
  · rcases hD : CipherState.Decrypt cs s.cst out s.h data with ⟨cst1, r⟩
    rw [hD] at h
    cases r with
    | ok pt => simp at h
    | fatal p => simp at h
    | err e2 =>
      simp at h
      subst h
      exact cipherDecrypt_err cs s.cst out s.h data _ (by rw [hD])

/-- On a valid cipher state, `DecryptAndHash` never panics. -/
theorem decryptAndHash_no_fatal (cs : CipherSuite) (s : symmetricState) (out data : Bytes)
    (p : GoPanic) (hinv : s.cst.invalid = false) :
    (s.DecryptAndHash cs out data).2 ≠ .fatal p := by
  unfold symmetricState.DecryptAndHash
  split
  · simp
  · rcases hD : CipherState.Decrypt cs s.cst out s.h data with ⟨cst1, r⟩
    have hnf := cipherDecrypt_no_fatal cs s.cst out s.h data p hinv
    rw [hD] at hnf
    cases r
    case ok pt => simp
    case err e2 => simp
    case fatal p2 => exact hnf

/-- If a received message is shorter than the on-wire material required by
the remaining tokens, the token loop ends in a returned error: the
short-message error, or the authentication error if an earlier,
fully-present encrypted `S` token fails to verify first. -/
theorem readTokens_short (cs : CipherSuite) (ts : List MessagePattern) :
    ∀ (s : HandshakeState) (m : Bytes),
      s.ss.cst.invalid = false →
      (0 < ts.count .S → s.rs = []) →
      ts.count .S ≤ 1 →
      m.length < reqLen cs ts s.ss.hasK s.ss.hasPSK →
      (readTokens cs ts s m).2 = .err .ShortMessage ∨
        (readTokens cs ts s m).2 = .err .AuthFailed := by
  induction ts with
  | nil =>
    intro s m _ _ _ hshort
    exact absurd hshort (by simp [reqLen])
  | cons t rest ih =>
    intro s m hinv hrs hone hshort
    cases t
    case E =>
      simp only [readTokens]
      by_cases hlen : m.length < cs.DHLen
      · rw [if_pos hlen]
        exact Or.inl rfl
      · rw [if_neg hlen]
        have hcount : (MessagePattern.E :: rest).count .S = rest.count .S := by
          simp [List.count_cons]
        refine ih _ _ ?_ ?_ ?_ ?_
        · cases hpsk : s.ss.hasPSK <;>
            simp [symmetricState.MixHash, symmetricState.MixKey, hpsk, hinv]
        · intro hc
          exact hrs (by rw [hcount]; exact hc)
        · rw [← hcount]; exact hone
        · have hK : (if (s.ss.MixHash cs (m.take cs.DHLen)).hasPSK = true then
              (s.ss.MixHash cs (m.take cs.DHLen)).MixKey cs (m.take cs.DHLen)
              else s.ss.MixHash cs (m.take cs.DHLen)).hasK = (s.ss.hasK || s.ss.hasPSK) := by
            cases hpsk : s.ss.hasPSK <;>
              simp [symmetricState.MixHash, symmetricState.MixKey, hpsk]
          have hP : (if (s.ss.MixHash cs (m.take cs.DHLen)).hasPSK = true then
              (s.ss.MixHash cs (m.take cs.DHLen)).MixKey cs (m.take cs.DHLen)
              else s.ss.MixHash cs (m.take cs.DHLen)).hasPSK = s.ss.hasPSK := by
            cases hpsk : s.ss.hasPSK <;>
              simp [symmetricState.MixHash, symmetricState.MixKey, hpsk]
          simp only [hK, hP, List.length_drop]
          simp only [reqLen] at hshort
          omega
    case S =>
      simp only [readTokens]
      by_cases hlen : m.length < cs.DHLen + if s.ss.hasK then 16 else 0
      · rw [if_pos hlen]
        exact Or.inl rfl
      · rw [if_neg hlen]
        have hrs0 : s.rs = [] := hrs (by simp [List.count_cons])
        rw [if_neg (by rw [hrs0]; simp)]
        have hcount : rest.count .S = 0 := by
          have := hone
          simp [List.count_cons] at this
          omega
        rcases hDH : symmetricState.DecryptAndHash cs s.ss []
            (m.take (cs.DHLen + if s.ss.hasK then 16 else 0)) with ⟨ss1, r⟩
        have hflags := decryptAndHash_flags cs s.ss []
          (m.take (cs.DHLen + if s.ss.hasK then 16 else 0))
        rw [hDH] at hflags
        cases r with
        | ok rs1 =>
          simp only
          refine ih _ _ ?_ ?_ ?_ ?_
          · rw [show ss1.cst.invalid = s.ss.cst.invalid from hflags.2.2]; exact hinv
          · intro hc
            exact absurd hc (by rw [hcount]; simp)
          · rw [hcount]; omega
          · simp only [show ss1.hasK = s.ss.hasK from hflags.1,
              show ss1.hasPSK = s.ss.hasPSK from hflags.2.1, List.length_drop]
            simp only [reqLen] at hshort
            omega
        | err e =>
          have he : e = .AuthFailed := by
            apply decryptAndHash_err cs s.ss []
              (m.take (cs.DHLen + if s.ss.hasK then 16 else 0))
            rw [hDH]
          subst he
          exact Or.inr rfl
        | fatal p =>
          have hnf := decryptAndHash_no_fatal cs s.ss []
            (m.take (cs.DHLen + if s.ss.hasK then 16 else 0)) p hinv
          rw [hDH] at hnf
          exact absurd rfl hnf
    case DHEE =>
      refine ih _ _ (by simp [symmetricState.MixKey, hinv]) ?_ ?_ ?_
      · intro hc; exact hrs (by simpa [List.count_cons] using hc)
      · simpa [List.count_cons] using hone
      · simp only [symmetricState.MixKey]
        simpa [reqLen] using hshort
    case DHES =>
      refine ih _ _ (by simp [symmetricState.MixKey, hinv]) ?_ ?_ ?_
      · intro hc; exact hrs (by simpa [List.count_cons] using hc)
      · simpa [List.count_cons] using hone
      · simp only [symmetricState.MixKey]
        simpa [reqLen] using hshort
    case DHSE =>
      refine ih _ _ (by simp [symmetricState.MixKey, hinv]) ?_ ?_ ?_
      · intro hc; exact hrs (by simpa [List.count_cons] using hc)
      · simpa [List.count_cons] using hone
      · simp only [symmetricState.MixKey]
        simpa [reqLen] using hshort
    case DHSS =>
      refine ih _ _ (by simp [symmetricState.MixKey, hinv]) ?_ ?_ ?_
      · intro hc; exact hrs (by simpa [List.count_cons] using hc)
      · simpa [List.count_cons] using hone
      · simp only [symmetricState.MixKey]
        simpa [reqLen] using hshort

/-- Discriminator for the normal-return outcome. -/
def NoiseOut.isOk {α : Type} : NoiseOut α → Bool
  | .ok _ => true
  | _ => false

/-- C3 (amended): when the received message does not contain enough bytes
for the on-wire material declared by the current message's tokens, the
lengths being pre-checked per token, `ReadMessage` returns an error — the
short-message error, except that an earlier fully-present encrypted `S`
token that fails authentication yields the authentication error — and
`shouldWrite` and `msgIdx` are not advanced. -/
theorem c3_short_message (cs : CipherSuite) (s : HandshakeState) (out message : Bytes)
    (hw : s.shouldWrite = false)
    (hidx : s.msgIdx < s.messagePatterns.length)
    (hinv : s.ss.cst.invalid = false)
    (hone : (s.messagePatterns.getD s.msgIdx []).count .S ≤ 1)
    (hrs : 0 < (s.messagePatterns.getD s.msgIdx []).count .S → s.rs = [])
    (hshort : message.length <
      reqLen cs (s.messagePatterns.getD s.msgIdx []) s.ss.hasK s.ss.hasPSK) :
    ((s.ReadMessage cs out message).2 = .err .ShortMessage ∨
      (s.ReadMessage cs out message).2 = .err .AuthFailed) ∧
    (s.ReadMessage cs out message).1.shouldWrite = s.shouldWrite ∧
    (s.ReadMessage cs out message).1.msgIdx = s.msgIdx := by
  have hsh := readTokens_short cs (s.messagePatterns.getD s.msgIdx []) s message
    hinv hrs hone hshort
  have hfr := readTokens_frame cs (s.messagePatterns.getD s.msgIdx []) s message
  unfold HandshakeState.ReadMessage
  rw [if_neg (by rw [hw]; exact Bool.false_ne_true), if_neg (Nat.not_le.mpr hidx)]
  rcases hRT : readTokens cs (s.messagePatterns.getD s.msgIdx []) s message with ⟨s1, r⟩
  rw [hRT] at hsh hfr
  cases r with
  | ok rest => simp at hsh
  | err e =>
    refine ⟨?_, ?_, ?_⟩
    · simpa using hsh
    · exact hfr.1
    · exact hfr.2.1
  | fatal p => simp at hsh

/-- Counterexample for C3: a one-message pattern `[[E]]` with payload `[1]`
over the toy suite produces a 3-byte message; truncating it by one byte
cuts into the payload, not into token material, and `ReadMessage` then
succeeds with an empty payload instead of returning the short-message
error. -/
def ePattern : HandshakePattern :=
  { Name := [69], InitiatorPreMessages := [], ResponderPreMessages := [],
    Messages := [[.E]] }

/-- Initiator configuration for `ePattern`. -/
def cfgE_A : Config := { cfgNN_A with Pattern := ePattern }

/-- Responder configuration for `ePattern`. -/
def cfgE_B : Config := { cfgNN_B with Pattern := ePattern }

/-- The single `ePattern` handshake message with payload `[1]`. -/
def eMsg : Bytes :=
  match ((NewHandshakeState toySuite cfgE_A).WriteMessage toySuite [] [1]).2 with
  | .ok (m, _) => m
  | _ => []

/-- Counterexample for C3: the honest message truncated by one byte is read
successfully (the truncation hits the payload), so truncation by one byte
does not imply the short-message error. -/
theorem c3_counterexample :
    eMsg.length = 3 ∧
    ((NewHandshakeState toySuite cfgE_B).ReadMessage toySuite [] eMsg.dropLast).2 ≠
      .err .ShortMessage ∧
    (((NewHandshakeState toySuite cfgE_B).ReadMessage toySuite []
      eMsg.dropLast).2).isOk = true := by
  decide

/-- Witness for C3: a fresh NN responder given a 1-byte message (shorter
than the 2-byte ephemeral the `E` token requires) reports the
short-message error without advancing its state. -/
theorem c3_short_message_witness :
    (((NewHandshakeState toySuite cfgNN_B).ReadMessage toySuite [] [5]).2 =
        .err .ShortMessage ∨
      ((NewHandshakeState toySuite cfgNN_B).ReadMessage toySuite [] [5]).2 =
        .err .AuthFailed) ∧
    ((NewHandshakeState toySuite cfgNN_B).ReadMessage toySuite [] [5]).1.shouldWrite =
      (NewHandshakeState toySuite cfgNN_B).shouldWrite ∧
    ((NewHandshakeState toySuite cfgNN_B).ReadMessage toySuite [] [5]).1.msgIdx =
      (NewHandshakeState toySuite cfgNN_B).msgIdx := by
  exact c3_short_message toySuite (NewHandshakeState toySuite cfgNN_B) [] [5]
    (by decide) (by decide) (by decide) (by decide) (by decide) (by decide)

/-- Knowledge state of a handshake, viewed from the current writer: whether
the writer (`w`) and reader (`r`) own a valid static (`S`) or ephemeral
(`E`) keypair and know the remote static (`Rs`) or ephemeral (`Re`)
public key. -/
structure KState where
  wS : Bool
  wE : Bool
  wRe : Bool
  wRs : Bool
  rS : Bool
  rE : Bool
  rRe : Bool
  rRs : Bool
deriving DecidableEq, Repr

/-- Swap the writer and reader sides of a knowledge state, as happens when
the turn changes. -/
def KState.swap (k : KState) : KState :=
  { wS := k.rS, wE := k.rE, wRe := k.rRe, wRs := k.rRs,
    rS := k.wS, rE := k.wE, rRe := k.wRe, rRs := k.wRs }

/-- Well-formedness of a single token under a knowledge state: each DH
token requires both endpoints of the exchange to be available, an `S`
token requires the writer's static and that the reader does not already
know the remote static (the source panics otherwise). -/
def wfToken (k : KState) : MessagePattern → Option KState
  | .E => some { k with wE := true, rRe := true }
  | .S => if k.wS && !k.rRs then some { k with rRs := true } else none
  | .DHEE => if k.wE && k.wRe && k.rE && k.rRe then some k else none
  | .DHES => if k.wE && k.wRs && k.rS && k.rRe then some k else none
  | .DHSE => if k.wS && k.wRe && k.rE && k.rRs then some k else none
  | .DHSS => if k.wS && k.wRs && k.rS && k.rRs then some k else none

/-- Well-formedness of a token list, threading the knowledge state. -/
def wfTokens : List MessagePattern → KState → Option KState
  | [], k => some k
  | t :: ts, k =>
    match wfToken k t with
    | some k1 => wfTokens ts k1
    | none => none

/-- Well-formedness of a message list, swapping the writer after each
message. -/
def wfMsgs : List (List MessagePattern) → KState → Option KState
  | [], k => some k
  | m :: ms, k =>
    match wfTokens m k with
    | some k1 => wfMsgs ms k1.swap
    | none => none

/-- The functional-correctness contract of a cipher suite, relative to a
notion of valid keypair: DH commutes on valid keypairs, generated keypairs
are valid and of the declared length, and the AEAD round-trips with a
16-byte tag overhead. -/
structure GoodSuite (cs : CipherSuite) (Valid : DHKey → Prop) : Prop where
  dhlen_pos : 0 < cs.DHLen
  dh_sym : ∀ x y : DHKey, Valid x → Valid y →
    cs.DH x.Private y.Public = cs.DH y.Private x.Public
  gen_valid : ∀ n, Valid (cs.GenerateKeypair n)
  gen_len : ∀ n, (cs.GenerateKeypair n).Public.length = cs.DHLen
  enc_dec : ∀ key n ad pt,
    (cs.Cipher key).Decrypt n ad ((cs.Cipher key).Encrypt n ad pt) = some pt
  enc_len : ∀ key n ad pt, ((cs.Cipher key).Encrypt n ad pt).length = pt.length + 16

/-- The key-correspondence facts between a writer and a reader state that a
knowledge state asserts. -/
structure KeyFacts (cs : CipherSuite) (Valid : DHKey → Prop) (k : KState)
    (W R : HandshakeState) : Prop where
  wS : k.wS = true → Valid W.s ∧ W.s.Public.length = cs.DHLen
  wE : k.wE = true → Valid W.e ∧ W.e.Public.length = cs.DHLen
  wRe : k.wRe = true → W.re = R.e.Public
  wRs : k.wRs = true → W.rs = R.s.Public
  wRsN : k.wRs = false → W.rs = []
  rS : k.rS = true → Valid R.s ∧ R.s.Public.length = cs.DHLen
  rE : k.rE = true → Valid R.e ∧ R.e.Public.length = cs.DHLen
  rRe : k.rRe = true → R.re = W.e.Public
  rRs : k.rRs = true → R.rs = W.s.Public
  rRsN : k.rRs = false → R.rs = []

/-- Mid-message coupling of the writer and reader states: identical
symmetric states, a valid (non-latched) cipher state, and the key facts of
the knowledge state. -/
structure TCoupled (cs : CipherSuite) (Valid : DHKey → Prop) (k : KState)
    (W R : HandshakeState) : Prop where
  ss_eq : W.ss = R.ss
  inv : W.ss.cst.invalid = false
  kf : KeyFacts cs Valid k W R

/-- Swapping the roles of a coupled pair swaps the knowledge state. -/
theorem KeyFacts.swap {cs : CipherSuite} {Valid : DHKey → Prop} {k : KState}
    {W R : HandshakeState} (kf : KeyFacts cs Valid k W R) :
    KeyFacts cs Valid k.swap R W :=
  { wS := kf.rS, wE := kf.rE, wRe := kf.rRe, wRs := kf.rRs, wRsN := kf.rRsN,
    rS := kf.wS, rE := kf.wE, rRe := kf.wRe, rRs := kf.wRs, rRsN := kf.wRsN }

/-- `MixKey` preserves the `invalid` latch. -/
theorem mixKey_invalid (cs : CipherSuite) (s : symmetricState) (d : Bytes) :
    (s.MixKey cs d).cst.invalid = s.cst.invalid := rfl

/-- `MixKey` preserves `hasPSK`. -/
theorem mixKey_hasPSK (cs : CipherSuite) (s : symmetricState) (d : Bytes) :
    (s.MixKey cs d).hasPSK = s.hasPSK := rfl

/-- `MixKey` sets `hasK`. -/
theorem mixKey_hasK (cs : CipherSuite) (s : symmetricState) (d : Bytes) :
    (s.MixKey cs d).hasK = true := rfl

/-- `MixHash` does not touch the embedded cipher state. -/
theorem mixHash_cst (cs : CipherSuite) (s : symmetricState) (d : Bytes) :
    (s.MixHash cs d).cst = s.cst := rfl

/-- `MixHash` preserves `hasK`. -/
theorem mixHash_hasK (cs : CipherSuite) (s : symmetricState) (d : Bytes) :
    (s.MixHash cs d).hasK = s.hasK := rfl

/-- `MixHash` preserves `hasPSK`. -/
theorem mixHash_hasPSK (cs : CipherSuite) (s : symmetricState) (d : Bytes) :
    (s.MixHash cs d).hasPSK = s.hasPSK := rfl

/-- Token-level simulation: under a coupled writer and reader and a
well-formed token list, the writer's token loop appends a chunk that the
reader's token loop consumes exactly, both succeed, and the resulting
states are coupled under the updated knowledge state. -/
theorem tokens_sim (cs : CipherSuite) (Valid : DHKey → Prop) (G : GoodSuite cs Valid)
    (ts : List MessagePattern) :
    ∀ (k k1 : KState) (W R : HandshakeState) (out : Bytes),
      TCoupled cs Valid k W R →
      wfTokens ts k = some k1 →
      ∃ W1 R1 chunk,
        writeTokens cs ts W out = (W1, .ok (out ++ chunk)) ∧
        (∀ rest, readTokens cs ts R (chunk ++ rest) = (R1, .ok rest)) ∧
        TCoupled cs Valid k1 W1 R1 ∧
        W1.shouldWrite = W.shouldWrite ∧ W1.msgIdx = W.msgIdx ∧
        W1.messagePatterns = W.messagePatterns ∧
        R1.shouldWrite = R.shouldWrite ∧ R1.msgIdx = R.msgIdx ∧
        R1.messagePatterns = R.messagePatterns := by
  induction ts with
  | nil =>
    intro k k1 W R out C hwf
    simp only [wfTokens, Option.some_inj] at hwf
    subst hwf
    exact ⟨W, R, [], by simp [writeTokens], fun rest => by simp [readTokens], C,
      rfl, rfl, rfl, rfl, rfl, rfl⟩
  | cons t ts ih =>
    intro k k1 W R out C hwf
    obtain ⟨hss, hinv, kf⟩ := C
    cases t
    case E =>
      simp only [wfTokens, wfToken] at hwf
      have hlen := G.gen_len W.rng
      have hval := G.gen_valid W.rng
      have C2 : TCoupled cs Valid { k with wE := true, rRe := true }
          { W with
              e := cs.GenerateKeypair W.rng, rng := W.rng + 1,
              ss := if (W.ss.MixHash cs (cs.GenerateKeypair W.rng).Public).hasPSK = true then
                  (W.ss.MixHash cs (cs.GenerateKeypair W.rng).Public).MixKey cs
                    (cs.GenerateKeypair W.rng).Public
                else W.ss.MixHash cs (cs.GenerateKeypair W.rng).Public }
          { R with
              re := (cs.GenerateKeypair W.rng).Public,
              ss := if (R.ss.MixHash cs (cs.GenerateKeypair W.rng).Public).hasPSK = true then
                  (R.ss.MixHash cs (cs.GenerateKeypair W.rng).Public).MixKey cs
                    (cs.GenerateKeypair W.rng).Public
                else R.ss.MixHash cs (cs.GenerateKeypair W.rng).Public } := by
        refine ⟨?_, ?_, ?_⟩
        · show (if (W.ss.MixHash cs (cs.GenerateKeypair W.rng).Public).hasPSK = true then _
            else _) = _
          rw [hss]
        · show (if (W.ss.MixHash cs (cs.GenerateKeypair W.rng).Public).hasPSK = true then
              (W.ss.MixHash cs (cs.GenerateKeypair W.rng).Public).MixKey cs
                (cs.GenerateKeypair W.rng).Public
            else W.ss.MixHash cs (cs.GenerateKeypair W.rng).Public).cst.invalid = false
          by_cases hpsk : (W.ss.MixHash cs (cs.GenerateKeypair W.rng).Public).hasPSK = true
          · rw [if_pos hpsk, mixKey_invalid, mixHash_cst]
            exact hinv
          · rw [if_neg hpsk, mixHash_cst]
            exact hinv
        · exact
            { wS := kf.wS, wE := fun _ => ⟨hval, hlen⟩, wRe := kf.wRe, wRs := kf.wRs,
              wRsN := kf.wRsN, rS := kf.rS, rE := kf.rE, rRe := fun _ => rfl,
              rRs := kf.rRs, rRsN := kf.rRsN }
      obtain ⟨W1, R1, chunk, hw1, hr1, C1, f1, f2, f3, f4, f5, f6⟩ :=
        ih _ k1 _ _ (out ++ (cs.GenerateKeypair W.rng).Public) C2 hwf
      refine ⟨W1, R1, (cs.GenerateKeypair W.rng).Public ++ chunk, ?_, ?_, C1,
        f1, f2, f3, f4, f5, f6⟩
      · simp only [writeTokens]
        rw [hw1, List.append_assoc]
      · intro rest
        rw [List.append_assoc]
        simp only [readTokens]
        rw [if_neg (by simp [hlen]), List.take_left' hlen, List.drop_left' hlen]
        exact hr1 rest
    case S =>
      simp only [wfTokens, wfToken] at hwf
      cases hc : (k.wS && !k.rRs) with
      | false => rw [hc] at hwf; simp at hwf
      | true =>
        rw [hc] at hwf
        simp only [if_true] at hwf
        simp only [Bool.and_eq_true, Bool.not_eq_true'] at hc
        obtain ⟨hwS, hrRs⟩ := hc
        have hsv := kf.wS hwS
        have hrs0 : R.rs = [] := kf.rRsN hrRs
        have hsne : ¬ W.s.Public.length = 0 := by
          have := G.dhlen_pos
          rw [hsv.2]
          omega
        have hinvR : R.ss.cst.invalid = false := by rw [← hss]; exact hinv
        cases hK : W.ss.hasK with
        | false =>
          have hKR : R.ss.hasK = false := by rw [← hss]; exact hK
          have hEAH : symmetricState.EncryptAndHash cs W.ss out W.s.Public =
              (W.ss.MixHash cs W.s.Public, .ok (out ++ W.s.Public)) := by
            unfold symmetricState.EncryptAndHash
            rw [hK]
            simp
          have hDAH : symmetricState.DecryptAndHash cs R.ss [] W.s.Public =
              (R.ss.MixHash cs W.s.Public, .ok W.s.Public) := by
            unfold symmetricState.DecryptAndHash
            rw [hKR]
            simp
          have C2 : TCoupled cs Valid { k with rRs := true }
              { W with ss := W.ss.MixHash cs W.s.Public }
              { R with ss := R.ss.MixHash cs W.s.Public, rs := W.s.Public } := by
            refine ⟨?_, ?_, ?_⟩
            · show W.ss.MixHash cs W.s.Public = R.ss.MixHash cs W.s.Public
              rw [hss]
            · show (W.ss.MixHash cs W.s.Public).cst.invalid = false
              rw [mixHash_cst]
              exact hinv
            · exact
                { wS := kf.wS, wE := kf.wE, wRe := kf.wRe, wRs := kf.wRs,
                  wRsN := kf.wRsN, rS := kf.rS, rE := kf.rE, rRe := kf.rRe,
                  rRs := fun _ => rfl,
                  rRsN := fun h => absurd h (by simp) }
          obtain ⟨W1, R1, chunk, hw1, hr1, C1, f1, f2, f3, f4, f5, f6⟩ :=
            ih _ k1 _ _ (out ++ W.s.Public) C2 hwf
          refine ⟨W1, R1, W.s.Public ++ chunk, ?_, ?_, C1, f1, f2, f3, f4, f5, f6⟩
          · simp only [writeTokens]
            rw [if_neg hsne, hEAH]
            simp only
            rw [hw1, List.append_assoc]
          · intro rest
            rw [List.append_assoc]
            simp only [readTokens, hKR, Bool.false_eq_true, if_false, Nat.add_zero]
            rw [if_neg (by simp [hsv.2]), hrs0,
              List.take_left' hsv.2, List.drop_left' hsv.2]
            simp only [List.length_nil, Nat.lt_irrefl, if_false, hDAH]
            exact hr1 rest
        | true =>
          have hKR : R.ss.hasK = true := by rw [← hss]; exact hK
          have hclen : ((cs.Cipher W.ss.cst.k).Encrypt W.ss.cst.n W.ss.h
              W.s.Public).length = cs.DHLen + 16 := by
            rw [G.enc_len, hsv.2]
          have hEAH : symmetricState.EncryptAndHash cs W.ss out W.s.Public =
              (symmetricState.MixHash cs
                { W.ss with cst := { W.ss.cst with n := (W.ss.cst.n + 1) % 2 ^ 64 } }
                ((cs.Cipher W.ss.cst.k).Encrypt W.ss.cst.n W.ss.h W.s.Public),
              .ok (out ++
                (cs.Cipher W.ss.cst.k).Encrypt W.ss.cst.n W.ss.h W.s.Public)) := by
            unfold symmetricState.EncryptAndHash CipherState.Encrypt
            rw [hK, hinv]
            simp only [Bool.true_eq_false, Bool.false_eq_true, if_false]
            simp only [List.drop_left]
            rw [hK, hinv]
          have hDAH : symmetricState.DecryptAndHash cs R.ss []
              ((cs.Cipher W.ss.cst.k).Encrypt W.ss.cst.n W.ss.h W.s.Public) =
              (symmetricState.MixHash cs
                { W.ss with cst := { W.ss.cst with n := (W.ss.cst.n + 1) % 2 ^ 64 } }
                ((cs.Cipher W.ss.cst.k).Encrypt W.ss.cst.n W.ss.h W.s.Public),
              .ok W.s.Public) := by
            rw [← hss]
            unfold symmetricState.DecryptAndHash CipherState.Decrypt
            rw [hK, hinv]
            simp only [Bool.true_eq_false, Bool.false_eq_true, if_false]
            rw [G.enc_dec]
            simp only [List.nil_append]
            rw [hK, hinv]
          have C2 : TCoupled cs Valid { k with rRs := true }
              { W with ss := (symmetricState.MixHash cs
                  { W.ss with cst := { W.ss.cst with n := (W.ss.cst.n + 1) % 2 ^ 64 } }
                  ((cs.Cipher W.ss.cst.k).Encrypt W.ss.cst.n W.ss.h W.s.Public)) }
              { R with
                  rs := W.s.Public,
                  ss := (symmetricState.MixHash cs
                    { W.ss with cst := { W.ss.cst with n := (W.ss.cst.n + 1) % 2 ^ 64 } }
                    ((cs.Cipher W.ss.cst.k).Encrypt W.ss.cst.n W.ss.h W.s.Public)) } := by
            refine ⟨rfl, ?_, ?_⟩
            · show (symmetricState.MixHash cs
                  { W.ss with cst := { W.ss.cst with n := (W.ss.cst.n + 1) % 2 ^ 64 } }
                  _).cst.invalid = false
              rw [mixHash_cst]
              exact hinv
            · exact
                { wS := kf.wS, wE := kf.wE, wRe := kf.wRe, wRs := kf.wRs,
                  wRsN := kf.wRsN, rS := kf.rS, rE := kf.rE, rRe := kf.rRe,
                  rRs := fun _ => rfl,
                  rRsN := fun h => absurd h (by simp) }
          obtain ⟨W1, R1, chunk, hw1, hr1, C1, f1, f2, f3, f4, f5, f6⟩ :=
            ih _ k1 _ _
              (out ++ (cs.Cipher W.ss.cst.k).Encrypt W.ss.cst.n W.ss.h W.s.Public)
              C2 hwf
          refine ⟨W1, R1,
            (cs.Cipher W.ss.cst.k).Encrypt W.ss.cst.n W.ss.h W.s.Public ++ chunk,
            ?_, ?_, C1, f1, f2, f3, f4, f5, f6⟩
          · simp only [writeTokens]
            rw [if_neg hsne, hEAH]
            simp only
            rw [hw1, List.append_assoc]
          · intro rest
            rw [List.append_assoc]
            simp only [readTokens, hKR, if_true]
            rw [if_neg (by simp [hclen]), hrs0,
              List.take_left' hclen, List.drop_left' hclen]
            simp only [List.length_nil, Nat.lt_irrefl, if_false, hDAH]
            exact hr1 rest
    case DHEE =>
      simp only [wfTokens, wfToken] at hwf
      cases hc : (k.wE && k.wRe && k.rE && k.rRe) with
      | false => rw [hc] at hwf; simp at hwf
      | true =>
        rw [hc] at hwf
        simp only at hwf
        simp only [Bool.and_eq_true] at hc
        obtain ⟨⟨⟨h1, h2⟩, h3⟩, h4⟩ := hc
        have hdh : cs.DH W.e.Private W.re = cs.DH R.e.Private R.re := by
          rw [kf.wRe h2, kf.rRe h4]
          exact G.dh_sym W.e R.e (kf.wE h1).1 (kf.rE h3).1
        have C2 : TCoupled cs Valid k
            { W with ss := W.ss.MixKey cs (cs.DH W.e.Private W.re) }
            { R with ss := R.ss.MixKey cs (cs.DH R.e.Private R.re) } := by
          refine ⟨?_, ?_, ?_⟩
          · show W.ss.MixKey cs (cs.DH W.e.Private W.re) =
              R.ss.MixKey cs (cs.DH R.e.Private R.re)
            rw [hss, hdh]
          · show (W.ss.MixKey cs (cs.DH W.e.Private W.re)).cst.invalid = false
            rw [mixKey_invalid]
            exact hinv
          · exact ⟨kf.wS, kf.wE, kf.wRe, kf.wRs, kf.wRsN, kf.rS, kf.rE, kf.rRe,
              kf.rRs, kf.rRsN⟩
        obtain ⟨W1, R1, chunk, hw1, hr1, C1, f1, f2, f3, f4, f5, f6⟩ :=
          ih k k1 _ _ out C2 hwf
        refine ⟨W1, R1, chunk, ?_, ?_, C1, f1, f2, f3, f4, f5, f6⟩
        · simp only [writeTokens]
          exact hw1
        · intro rest
          simp only [readTokens]
          exact hr1 rest
    case DHES =>
      simp only [wfTokens, wfToken] at hwf
      cases hc : (k.wE && k.wRs && k.rS && k.rRe) with
      | false => rw [hc] at hwf; simp at hwf
      | true =>
        rw [hc] at hwf
        simp only at hwf
        simp only [Bool.and_eq_true] at hc
        obtain ⟨⟨⟨h1, h2⟩, h3⟩, h4⟩ := hc
        have hdh : cs.DH W.e.Private W.rs = cs.DH R.s.Private R.re := by
          rw [kf.wRs h2, kf.rRe h4]
          exact G.dh_sym W.e R.s (kf.wE h1).1 (kf.rS h3).1
        have C2 : TCoupled cs Valid k
            { W with ss := W.ss.MixKey cs (cs.DH W.e.Private W.rs) }
            { R with ss := R.ss.MixKey cs (cs.DH R.s.Private R.re) } := by
          refine ⟨?_, ?_, ?_⟩
          · show W.ss.MixKey cs (cs.DH W.e.Private W.rs) =
              R.ss.MixKey cs (cs.DH R.s.Private R.re)
            rw [hss, hdh]
          · show (W.ss.MixKey cs (cs.DH W.e.Private W.rs)).cst.invalid = false
            rw [mixKey_invalid]
            exact hinv
          · exact ⟨kf.wS, kf.wE, kf.wRe, kf.wRs, kf.wRsN, kf.rS, kf.rE, kf.rRe,
              kf.rRs, kf.rRsN⟩
        obtain ⟨W1, R1, chunk, hw1, hr1, C1, f1, f2, f3, f4, f5, f6⟩ :=
          ih k k1 _ _ out C2 hwf
        refine ⟨W1, R1, chunk, ?_, ?_, C1, f1, f2, f3, f4, f5, f6⟩
        · simp only [writeTokens]
          exact hw1
        · intro rest
          simp only [readTokens]
          exact hr1 rest
    case DHSE =>
      simp only [wfTokens, wfToken] at hwf
      cases hc : (k.wS && k.wRe && k.rE && k.rRs) with
      | false => rw [hc] at hwf; simp at hwf
      | true =>
        rw [hc] at hwf
        simp only at hwf
        simp only [Bool.and_eq_true] at hc
        obtain ⟨⟨⟨h1, h2⟩, h3⟩, h4⟩ := hc
        have hdh : cs.DH W.s.Private W.re = cs.DH R.e.Private R.rs := by
          rw [kf.wRe h2, kf.rRs h4]
          exact G.dh_sym W.s R.e (kf.wS h1).1 (kf.rE h3).1
        have C2 : TCoupled cs Valid k
            { W with ss := W.ss.MixKey cs (cs.DH W.s.Private W.re) }
            { R with ss := R.ss.MixKey cs (cs.DH R.e.Private R.rs) } := by
          refine ⟨?_, ?_, ?_⟩
          · show W.ss.MixKey cs (cs.DH W.s.Private W.re) =
              R.ss.MixKey cs (cs.DH R.e.Private R.rs)
            rw [hss, hdh]
          · show (W.ss.MixKey cs (cs.DH W.s.Private W.re)).cst.invalid = false
            rw [mixKey_invalid]
            exact hinv
          · exact ⟨kf.wS, kf.wE, kf.wRe, kf.wRs, kf.wRsN, kf.rS, kf.rE, kf.rRe,
              kf.rRs, kf.rRsN⟩
        obtain ⟨W1, R1, chunk, hw1, hr1, C1, f1, f2, f3, f4, f5, f6⟩ :=
          ih k k1 _ _ out C2 hwf
        refine ⟨W1, R1, chunk, ?_, ?_, C1, f1, f2, f3, f4, f5, f6⟩
        · simp only [writeTokens]
          exact hw1
        · intro rest
          simp only [readTokens]
          exact hr1 rest
    case DHSS =>
      simp only [wfTokens, wfToken] at hwf
      cases hc : (k.wS && k.wRs && k.rS && k.rRs) with
      | false => rw [hc] at hwf; simp at hwf
      | true =>
        rw [hc] at hwf
        simp only at hwf
        simp only [Bool.and_eq_true] at hc
        obtain ⟨⟨⟨h1, h2⟩, h3⟩, h4⟩ := hc
        have hdh : cs.DH W.s.Private W.rs = cs.DH R.s.Private R.rs := by
          rw [kf.wRs h2, kf.rRs h4]
          exact G.dh_sym W.s R.s (kf.wS h1).1 (kf.rS h3).1
        have C2 : TCoupled cs Valid k
            { W with ss := W.ss.MixKey cs (cs.DH W.s.Private W.rs) }
            { R with ss := R.ss.MixKey cs (cs.DH R.s.Private R.rs) } := by
          refine ⟨?_, ?_, ?_⟩
          · show W.ss.MixKey cs (cs.DH W.s.Private W.rs) =
              R.ss.MixKey cs (cs.DH R.s.Private R.rs)
            rw [hss, hdh]
          · show (W.ss.MixKey cs (cs.DH W.s.Private W.rs)).cst.invalid = false
            rw [mixKey_invalid]
            exact hinv
          · exact ⟨kf.wS, kf.wE, kf.wRe, kf.wRs, kf.wRsN, kf.rS, kf.rE, kf.rRe,
              kf.rRs, kf.rRsN⟩
        obtain ⟨W1, R1, chunk, hw1, hr1, C1, f1, f2, f3, f4, f5, f6⟩ :=
          ih k k1 _ _ out C2 hwf
        refine ⟨W1, R1, chunk, ?_, ?_, C1, f1, f2, f3, f4, f5, f6⟩
        · simp only [writeTokens]
          exact hw1
        · intro rest
          simp only [readTokens]
          exact hr1 rest

/-- Message-level simulation: one full round (a `WriteMessage` by the peer
whose turn it is, read by the other) succeeds, delivers the payload, keeps
the two states coupled with the roles swapped, and on the final message
both peers return the identical pair of `Split` cipher states. -/
theorem round_sim (cs : CipherSuite) (Valid : DHKey → Prop) (G : GoodSuite cs Valid)
    (msgs : List (List MessagePattern)) (i : Nat) (k k1 : KState)
    (W R : HandshakeState) (payload : Bytes)
    (C : TCoupled cs Valid k W R)
    (hWw : W.shouldWrite = true) (hRw : R.shouldWrite = false)
    (hWi : W.msgIdx = i) (hRi : R.msgIdx = i)
    (hWp : W.messagePatterns = msgs) (hRp : R.messagePatterns = msgs)
    (hi : i < msgs.length)
    (hwf : wfTokens (msgs.getD i []) k = some k1)
    (hpay : payload.length ≤ MaxMsgLen) :
    ∃ W1 R1 sw,
      handshakeRound cs W R payload = some (W1, R1, payload, sw, sw) ∧
      TCoupled cs Valid k1.swap R1 W1 ∧
      W1.shouldWrite = false ∧ R1.shouldWrite = true ∧
      W1.msgIdx = i + 1 ∧ R1.msgIdx = i + 1 ∧
      W1.messagePatterns = msgs ∧ R1.messagePatterns = msgs ∧
      W1.ss = R1.ss ∧
      (msgs.length ≤ i + 1 → sw = some (W1.ss.Split cs)) ∧
      (i + 1 < msgs.length → sw = none) := by
  obtain ⟨W1', R1', chunk, hw1, hr1, C1, f1, f2, f3, f4, f5, f6⟩ :=
    tokens_sim cs Valid G (msgs.getD i []) k k1 W R [] C hwf
  obtain ⟨hss1, hinv1, kf1⟩ := C1
  cases hK1 : W1'.ss.hasK with
  | false =>
    have hEAH : symmetricState.EncryptAndHash cs W1'.ss chunk payload =
        (W1'.ss.MixHash cs payload, .ok (chunk ++ payload)) := by
      unfold symmetricState.EncryptAndHash
      rw [hK1]
      simp
    have hDAH : symmetricState.DecryptAndHash cs R1'.ss [] payload =
        (W1'.ss.MixHash cs payload, .ok payload) := by
      rw [← hss1]
      unfold symmetricState.DecryptAndHash
      rw [hK1]
      simp
    by_cases hfin : msgs.length ≤ i + 1
    · -- final message, plaintext payload
      have hwme : W.WriteMessage cs [] payload =
          ({ W1' with shouldWrite := false, msgIdx := W1'.msgIdx + 1, ss := (W1'.ss.MixHash cs payload) },
            .ok (chunk ++ payload, some (symmetricState.Split cs (W1'.ss.MixHash cs payload)))) := by
        unfold HandshakeState.WriteMessage
        rw [if_neg (by rw [hWw]; simp), if_neg (by rw [hWp, hWi]; omega),
          if_neg (Nat.not_lt.mpr hpay), hWp, hWi, hw1]
        simp only [List.nil_append]
        rw [hEAH]
        simp only
        rw [if_pos (show ({ W1' with shouldWrite := false, msgIdx := W1'.msgIdx + 1, ss := (W1'.ss.MixHash cs payload) } : HandshakeState).messagePatterns.length ≤ W1'.msgIdx + 1 by show W1'.messagePatterns.length ≤ W1'.msgIdx + 1; rw [f3, hWp, f2, hWi]; exact hfin)]
      have hrme : R.ReadMessage cs [] (chunk ++ payload) =
          ({ R1' with shouldWrite := true, msgIdx := R1'.msgIdx + 1, ss := (W1'.ss.MixHash cs payload) },
            .ok (payload, some (symmetricState.Split cs (W1'.ss.MixHash cs payload)))) := by
        unfold HandshakeState.ReadMessage
        rw [if_neg (by rw [hRw]; simp), if_neg (by rw [hRp, hRi]; omega),
          hRp, hRi, hr1 (payload)]
        simp only
        rw [hDAH]
        simp only
        rw [if_pos (show ({ R1' with shouldWrite := true, msgIdx := R1'.msgIdx + 1, ss := (W1'.ss.MixHash cs payload) } : HandshakeState).messagePatterns.length ≤ R1'.msgIdx + 1 by show R1'.messagePatterns.length ≤ R1'.msgIdx + 1; rw [f6, hRp, f5, hRi]; exact hfin)]
      refine ⟨{ W1' with shouldWrite := false, msgIdx := W1'.msgIdx + 1, ss := (W1'.ss.MixHash cs payload) },
        { R1' with shouldWrite := true, msgIdx := R1'.msgIdx + 1, ss := (W1'.ss.MixHash cs payload) },
        some (symmetricState.Split cs (W1'.ss.MixHash cs payload)), ?_, ?_, rfl, rfl, ?_, ?_, ?_, ?_, rfl, ?_, ?_⟩
      · unfold handshakeRound
        rw [hwme]
        simp only
        rw [hrme]
      · refine ⟨rfl, ?_, ?_⟩
        · show ((W1'.ss.MixHash cs payload)).cst.invalid = false
          rw [mixHash_cst]
          exact hinv1
        · exact
            { wS := kf1.rS, wE := kf1.rE, wRe := kf1.rRe, wRs := kf1.rRs,
              wRsN := kf1.rRsN, rS := kf1.wS, rE := kf1.wE, rRe := kf1.wRe,
              rRs := kf1.wRs, rRsN := kf1.wRsN }
      · show W1'.msgIdx + 1 = i + 1
        rw [f2, hWi]
      · show R1'.msgIdx + 1 = i + 1
        rw [f5, hRi]
      · show W1'.messagePatterns = msgs
        rw [f3, hWp]
      · show R1'.messagePatterns = msgs
        rw [f6, hRp]
      · exact fun _ => rfl
      · intro hcon
        omega
    · -- intermediate message, plaintext payload
      have hwme : W.WriteMessage cs [] payload =
          ({ W1' with shouldWrite := false, msgIdx := W1'.msgIdx + 1, ss := (W1'.ss.MixHash cs payload) },
            .ok (chunk ++ payload, none)) := by
        unfold HandshakeState.WriteMessage
        rw [if_neg (by rw [hWw]; simp), if_neg (by rw [hWp, hWi]; omega),
          if_neg (Nat.not_lt.mpr hpay), hWp, hWi, hw1]
        simp only [List.nil_append]
        rw [hEAH]
        simp only
        rw [if_neg (show ¬ ({ W1' with shouldWrite := false, msgIdx := W1'.msgIdx + 1, ss := (W1'.ss.MixHash cs payload) } : HandshakeState).messagePatterns.length ≤ W1'.msgIdx + 1 by show ¬ W1'.messagePatterns.length ≤ W1'.msgIdx + 1; rw [f3, hWp, f2, hWi]; exact hfin)]
      have hrme : R.ReadMessage cs [] (chunk ++ payload) =
          ({ R1' with shouldWrite := true, msgIdx := R1'.msgIdx + 1, ss := (W1'.ss.MixHash cs payload) },
            .ok (payload, none)) := by
        unfold HandshakeState.ReadMessage
        rw [if_neg (by rw [hRw]; simp), if_neg (by rw [hRp, hRi]; omega),
          hRp, hRi, hr1 (payload)]
        simp only
        rw [hDAH]
        simp only
        rw [if_neg (show ¬ ({ R1' with shouldWrite := true, msgIdx := R1'.msgIdx + 1, ss := (W1'.ss.MixHash cs payload) } : HandshakeState).messagePatterns.length ≤ R1'.msgIdx + 1 by show ¬ R1'.messagePatterns.length ≤ R1'.msgIdx + 1; rw [f6, hRp, f5, hRi]; exact hfin)]
      refine ⟨{ W1' with shouldWrite := false, msgIdx := W1'.msgIdx + 1, ss := (W1'.ss.MixHash cs payload) },
        { R1' with shouldWrite := true, msgIdx := R1'.msgIdx + 1, ss := (W1'.ss.MixHash cs payload) },
        none, ?_, ?_, rfl, rfl, ?_, ?_, ?_, ?_, rfl, ?_, ?_⟩
      · unfold handshakeRound
        rw [hwme]
        simp only
        rw [hrme]
      · refine ⟨rfl, ?_, ?_⟩
        · show ((W1'.ss.MixHash cs payload)).cst.invalid = false
          rw [mixHash_cst]
          exact hinv1
        · exact
            { wS := kf1.rS, wE := kf1.rE, wRe := kf1.rRe, wRs := kf1.rRs,
              wRsN := kf1.rRsN, rS := kf1.wS, rE := kf1.wE, rRe := kf1.wRe,
              rRs := kf1.wRs, rRsN := kf1.wRsN }
      · show W1'.msgIdx + 1 = i + 1
        rw [f2, hWi]
      · show R1'.msgIdx + 1 = i + 1
        rw [f5, hRi]
      · show W1'.messagePatterns = msgs
        rw [f3, hWp]
      · show R1'.messagePatterns = msgs
        rw [f6, hRp]
      · intro hcon
        omega
      · exact fun _ => rfl
  | true =>
    have hEAH : symmetricState.EncryptAndHash cs W1'.ss chunk payload =
        ((symmetricState.MixHash cs { W1'.ss with cst := { W1'.ss.cst with n := (W1'.ss.cst.n + 1) % 2 ^ 64 } } ((cs.Cipher W1'.ss.cst.k).Encrypt W1'.ss.cst.n W1'.ss.h payload)),
          .ok (chunk ++ ((cs.Cipher W1'.ss.cst.k).Encrypt W1'.ss.cst.n W1'.ss.h payload))) := by
      unfold symmetricState.EncryptAndHash CipherState.Encrypt
      rw [hK1, hinv1]
      simp only [Bool.true_eq_false, Bool.false_eq_true, if_false]
      simp only [List.drop_left]
      rw [hK1, hinv1]
    have hDAH : symmetricState.DecryptAndHash cs R1'.ss []
        (((cs.Cipher W1'.ss.cst.k).Encrypt W1'.ss.cst.n W1'.ss.h payload)) =
        ((symmetricState.MixHash cs { W1'.ss with cst := { W1'.ss.cst with n := (W1'.ss.cst.n + 1) % 2 ^ 64 } } ((cs.Cipher W1'.ss.cst.k).Encrypt W1'.ss.cst.n W1'.ss.h payload)), .ok payload) := by
      rw [← hss1]
      unfold symmetricState.DecryptAndHash CipherState.Decrypt
      rw [hK1, hinv1]
      simp only [Bool.true_eq_false, Bool.false_eq_true, if_false]
      rw [G.enc_dec]
      simp only [List.nil_append]
      rw [hK1, hinv1]
    by_cases hfin : msgs.length ≤ i + 1
    · -- final message, encrypted payload
      have hwme : W.WriteMessage cs [] payload =
          ({ W1' with shouldWrite := false, msgIdx := W1'.msgIdx + 1, ss := (symmetricState.MixHash cs { W1'.ss with cst := { W1'.ss.cst with n := (W1'.ss.cst.n + 1) % 2 ^ 64 } } ((cs.Cipher W1'.ss.cst.k).Encrypt W1'.ss.cst.n W1'.ss.h payload)) },
            .ok (chunk ++ ((cs.Cipher W1'.ss.cst.k).Encrypt W1'.ss.cst.n W1'.ss.h payload), some (symmetricState.Split cs (symmetricState.MixHash cs { W1'.ss with cst := { W1'.ss.cst with n := (W1'.ss.cst.n + 1) % 2 ^ 64 } } ((cs.Cipher W1'.ss.cst.k).Encrypt W1'.ss.cst.n W1'.ss.h payload))))) := by
        unfold HandshakeState.WriteMessage
        rw [if_neg (by rw [hWw]; simp), if_neg (by rw [hWp, hWi]; omega),
          if_neg (Nat.not_lt.mpr hpay), hWp, hWi, hw1]
        simp only [List.nil_append]
        rw [hEAH]
        simp only
        rw [if_pos (show ({ W1' with shouldWrite := false, msgIdx := W1'.msgIdx + 1, ss := (symmetricState.MixHash cs { W1'.ss with cst := { W1'.ss.cst with n := (W1'.ss.cst.n + 1) % 2 ^ 64 } } ((cs.Cipher W1'.ss.cst.k).Encrypt W1'.ss.cst.n W1'.ss.h payload)) } : HandshakeState).messagePatterns.length ≤ W1'.msgIdx + 1 by show W1'.messagePatterns.length ≤ W1'.msgIdx + 1; rw [f3, hWp, f2, hWi]; exact hfin)]
      have hrme : R.ReadMessage cs [] (chunk ++ ((cs.Cipher W1'.ss.cst.k).Encrypt W1'.ss.cst.n W1'.ss.h payload)) =
          ({ R1' with shouldWrite := true, msgIdx := R1'.msgIdx + 1, ss := (symmetricState.MixHash cs { W1'.ss with cst := { W1'.ss.cst with n := (W1'.ss.cst.n + 1) % 2 ^ 64 } } ((cs.Cipher W1'.ss.cst.k).Encrypt W1'.ss.cst.n W1'.ss.h payload)) },
            .ok (payload, some (symmetricState.Split cs (symmetricState.MixHash cs { W1'.ss with cst := { W1'.ss.cst with n := (W1'.ss.cst.n + 1) % 2 ^ 64 } } ((cs.Cipher W1'.ss.cst.k).Encrypt W1'.ss.cst.n W1'.ss.h payload))))) := by
        unfold HandshakeState.ReadMessage
        rw [if_neg (by rw [hRw]; simp), if_neg (by rw [hRp, hRi]; omega),
          hRp, hRi, hr1 (((cs.Cipher W1'.ss.cst.k).Encrypt W1'.ss.cst.n W1'.ss.h payload))]
        simp only
        rw [hDAH]
        simp only
        rw [if_pos (show ({ R1' with shouldWrite := true, msgIdx := R1'.msgIdx + 1, ss := (symmetricState.MixHash cs { W1'.ss with cst := { W1'.ss.cst with n := (W1'.ss.cst.n + 1) % 2 ^ 64 } } ((cs.Cipher W1'.ss.cst.k).Encrypt W1'.ss.cst.n W1'.ss.h payload)) } : HandshakeState).messagePatterns.length ≤ R1'.msgIdx + 1 by show R1'.messagePatterns.length ≤ R1'.msgIdx + 1; rw [f6, hRp, f5, hRi]; exact hfin)]
      refine ⟨{ W1' with shouldWrite := false, msgIdx := W1'.msgIdx + 1, ss := (symmetricState.MixHash cs { W1'.ss with cst := { W1'.ss.cst with n := (W1'.ss.cst.n + 1) % 2 ^ 64 } } ((cs.Cipher W1'.ss.cst.k).Encrypt W1'.ss.cst.n W1'.ss.h payload)) },
        { R1' with shouldWrite := true, msgIdx := R1'.msgIdx + 1, ss := (symmetricState.MixHash cs { W1'.ss with cst := { W1'.ss.cst with n := (W1'.ss.cst.n + 1) % 2 ^ 64 } } ((cs.Cipher W1'.ss.cst.k).Encrypt W1'.ss.cst.n W1'.ss.h payload)) },
        some (symmetricState.Split cs (symmetricState.MixHash cs { W1'.ss with cst := { W1'.ss.cst with n := (W1'.ss.cst.n + 1) % 2 ^ 64 } } ((cs.Cipher W1'.ss.cst.k).Encrypt W1'.ss.cst.n W1'.ss.h payload))), ?_, ?_, rfl, rfl, ?_, ?_, ?_, ?_, rfl, ?_, ?_⟩
      · unfold handshakeRound
        rw [hwme]
        simp only
        rw [hrme]
      · refine ⟨rfl, ?_, ?_⟩
        · show ((symmetricState.MixHash cs { W1'.ss with cst := { W1'.ss.cst with n := (W1'.ss.cst.n + 1) % 2 ^ 64 } } ((cs.Cipher W1'.ss.cst.k).Encrypt W1'.ss.cst.n W1'.ss.h payload))).cst.invalid = false
          rw [mixHash_cst]
          exact hinv1
        · exact
            { wS := kf1.rS, wE := kf1.rE, wRe := kf1.rRe, wRs := kf1.rRs,
              wRsN := kf1.rRsN, rS := kf1.wS, rE := kf1.wE, rRe := kf1.wRe,
              rRs := kf1.wRs, rRsN := kf1.wRsN }
      · show W1'.msgIdx + 1 = i + 1
        rw [f2, hWi]
      · show R1'.msgIdx + 1 = i + 1
        rw [f5, hRi]
      · show W1'.messagePatterns = msgs
        rw [f3, hWp]
      · show R1'.messagePatterns = msgs
        rw [f6, hRp]
      · exact fun _ => rfl
      · intro hcon
        omega
    · -- intermediate message, encrypted payload
      have hwme : W.WriteMessage cs [] payload =
          ({ W1' with shouldWrite := false, msgIdx := W1'.msgIdx + 1, ss := (symmetricState.MixHash cs { W1'.ss with cst := { W1'.ss.cst with n := (W1'.ss.cst.n + 1) % 2 ^ 64 } } ((cs.Cipher W1'.ss.cst.k).Encrypt W1'.ss.cst.n W1'.ss.h payload)) },
            .ok (chunk ++ ((cs.Cipher W1'.ss.cst.k).Encrypt W1'.ss.cst.n W1'.ss.h payload), none)) := by
        unfold HandshakeState.WriteMessage
        rw [if_neg (by rw [hWw]; simp), if_neg (by rw [hWp, hWi]; omega),
          if_neg (Nat.not_lt.mpr hpay), hWp, hWi, hw1]
        simp only [List.nil_append]
        rw [hEAH]
        simp only
        rw [if_neg (show ¬ ({ W1' with shouldWrite := false, msgIdx := W1'.msgIdx + 1, ss := (symmetricState.MixHash cs { W1'.ss with cst := { W1'.ss.cst with n := (W1'.ss.cst.n + 1) % 2 ^ 64 } } ((cs.Cipher W1'.ss.cst.k).Encrypt W1'.ss.cst.n W1'.ss.h payload)) } : HandshakeState).messagePatterns.length ≤ W1'.msgIdx + 1 by show ¬ W1'.messagePatterns.length ≤ W1'.msgIdx + 1; rw [f3, hWp, f2, hWi]; exact hfin)]
      have hrme : R.ReadMessage cs [] (chunk ++ ((cs.Cipher W1'.ss.cst.k).Encrypt W1'.ss.cst.n W1'.ss.h payload)) =
          ({ R1' with shouldWrite := true, msgIdx := R1'.msgIdx + 1, ss := (symmetricState.MixHash cs { W1'.ss with cst := { W1'.ss.cst with n := (W1'.ss.cst.n + 1) % 2 ^ 64 } } ((cs.Cipher W1'.ss.cst.k).Encrypt W1'.ss.cst.n W1'.ss.h payload)) },
            .ok (payload, none)) := by
        unfold HandshakeState.ReadMessage
        rw [if_neg (by rw [hRw]; simp), if_neg (by rw [hRp, hRi]; omega),
          hRp, hRi, hr1 (((cs.Cipher W1'.ss.cst.k).Encrypt W1'.ss.cst.n W1'.ss.h payload))]
        simp only
        rw [hDAH]
        simp only
        rw [if_neg (show ¬ ({ R1' with shouldWrite := true, msgIdx := R1'.msgIdx + 1, ss := (symmetricState.MixHash cs { W1'.ss with cst := { W1'.ss.cst with n := (W1'.ss.cst.n + 1) % 2 ^ 64 } } ((cs.Cipher W1'.ss.cst.k).Encrypt W1'.ss.cst.n W1'.ss.h payload)) } : HandshakeState).messagePatterns.length ≤ R1'.msgIdx + 1 by show ¬ R1'.messagePatterns.length ≤ R1'.msgIdx + 1; rw [f6, hRp, f5, hRi]; exact hfin)]
      refine ⟨{ W1' with shouldWrite := false, msgIdx := W1'.msgIdx + 1, ss := (symmetricState.MixHash cs { W1'.ss with cst := { W1'.ss.cst with n := (W1'.ss.cst.n + 1) % 2 ^ 64 } } ((cs.Cipher W1'.ss.cst.k).Encrypt W1'.ss.cst.n W1'.ss.h payload)) },
        { R1' with shouldWrite := true, msgIdx := R1'.msgIdx + 1, ss := (symmetricState.MixHash cs { W1'.ss with cst := { W1'.ss.cst with n := (W1'.ss.cst.n + 1) % 2 ^ 64 } } ((cs.Cipher W1'.ss.cst.k).Encrypt W1'.ss.cst.n W1'.ss.h payload)) },
        none, ?_, ?_, rfl, rfl, ?_, ?_, ?_, ?_, rfl, ?_, ?_⟩
      · unfold handshakeRound
        rw [hwme]
        simp only
        rw [hrme]
      · refine ⟨rfl, ?_, ?_⟩
        · show ((symmetricState.MixHash cs { W1'.ss with cst := { W1'.ss.cst with n := (W1'.ss.cst.n + 1) % 2 ^ 64 } } ((cs.Cipher W1'.ss.cst.k).Encrypt W1'.ss.cst.n W1'.ss.h payload))).cst.invalid = false
          rw [mixHash_cst]
          exact hinv1
        · exact
            { wS := kf1.rS, wE := kf1.rE, wRe := kf1.rRe, wRs := kf1.rRs,
              wRsN := kf1.rRsN, rS := kf1.wS, rE := kf1.wE, rRe := kf1.wRe,
              rRs := kf1.wRs, rRsN := kf1.wRsN }
      · show W1'.msgIdx + 1 = i + 1
        rw [f2, hWi]
      · show R1'.msgIdx + 1 = i + 1
        rw [f5, hRi]
      · show W1'.messagePatterns = msgs
        rw [f3, hWp]
      · show R1'.messagePatterns = msgs
        rw [f6, hRp]
      · intro hcon
        omega
      · exact fun _ => rfl

/-- Run-level simulation: alternating the full handshake from a coupled
pair of states delivers every payload, succeeds at every step, and ends
with both peers holding identical symmetric states and returning the
identical pair of `Split` cipher states. -/
theorem run_sim (cs : CipherSuite) (Valid : DHKey → Prop) (G : GoodSuite cs Valid)
    (msgs : List (List MessagePattern)) :
    ∀ (ps : List Bytes) (i : Nat) (k : KState) (W R : HandshakeState),
      TCoupled cs Valid k W R →
      W.shouldWrite = true → R.shouldWrite = false →
      W.msgIdx = i → R.msgIdx = i →
      W.messagePatterns = msgs → R.messagePatterns = msgs →
      i + ps.length = msgs.length →
      ps ≠ [] →
      (∀ p ∈ ps, p.length ≤ MaxMsgLen) →
      (wfMsgs (msgs.drop i) k).isSome = true →
      ∃ Wf Rf sp,
        runAll cs ps W R = some (Wf, Rf, some sp, some sp, ps) ∧
        Wf.ss = Rf.ss := by
  intro ps
  induction ps with
  | nil => intro i k W R _ _ _ _ _ _ _ _ hne _ _; exact absurd rfl hne
  | cons p ps ih =>
    intro i k W R C hWw hRw hWi hRi hWp hRp hcnt _ hpay hwfs
    have hi : i < msgs.length := by
      simp only [List.length_cons] at hcnt
      omega
    have hdrop : msgs.drop i = msgs.getD i [] :: msgs.drop (i + 1) := by
      rw [List.getD_eq_getElem msgs [] hi]
      exact List.drop_eq_getElem_cons hi
    rw [hdrop] at hwfs
    simp only [wfMsgs] at hwfs
    rcases hwf1 : wfTokens (msgs.getD i []) k with _ | k1
    · rw [hwf1] at hwfs
      simp at hwfs
    · rw [hwf1] at hwfs
      simp only at hwfs
      obtain ⟨W1, R1, sw, hround, C1, g1, g2, g3, g4, g5, g6, g7, gfin, gmid⟩ :=
        round_sim cs Valid G msgs i k k1 W R p C hWw hRw hWi hRi hWp hRp hi hwf1
          (hpay p (List.mem_cons_self p ps))
    -- continue by cases on the remaining payloads
      cases ps with
      | nil =>
        have hfin : msgs.length ≤ i + 1 := by
          simp only [List.length_cons, List.length_nil] at hcnt
          omega
        refine ⟨W1, R1, W1.ss.Split cs, ?_, ?_⟩
        · unfold runAll
          rw [hround, gfin hfin]
        · exact g7
      | cons q qs =>
        have hcnt2 : (i + 1) + (q :: qs).length = msgs.length := by
          simp only [List.length_cons] at hcnt ⊢
          omega
        obtain ⟨Wf, Rf, sp, hrun, hssf⟩ :=
          ih (i + 1) k1.swap R1 W1 C1 g2 g1 g4 g3 g6 g5 hcnt2
            (by simp) (fun x hx => hpay x (List.mem_cons_of_mem p hx)) hwfs
        refine ⟨Wf, Rf, sp, ?_, hssf⟩
        unfold runAll
        rw [hround]
        simp only
        rw [hrun]

/-- The initiator-pre-message loop changes only the symmetric state. -/
theorem preMessagesInit_fields (cs : CipherSuite) (b : Bool) :
    ∀ (l : List MessagePattern) (hs : HandshakeState),
      (preMessagesInit cs b l hs).s = hs.s ∧
      (preMessagesInit cs b l hs).e = hs.e ∧
      (preMessagesInit cs b l hs).rs = hs.rs ∧
      (preMessagesInit cs b l hs).re = hs.re ∧
      (preMessagesInit cs b l hs).messagePatterns = hs.messagePatterns ∧
      (preMessagesInit cs b l hs).shouldWrite = hs.shouldWrite ∧
      (preMessagesInit cs b l hs).msgIdx = hs.msgIdx := by
  intro l
  induction l with
  | nil => exact fun hs => ⟨rfl, rfl, rfl, rfl, rfl, rfl, rfl⟩
  | cons m l ihl =>
    intro hs
    cases m <;> cases b <;> simp only [preMessagesInit] <;> exact ihl _

/-- The responder-pre-message loop changes only the symmetric state. -/
theorem preMessagesResp_fields (cs : CipherSuite) (b : Bool) :
    ∀ (l : List MessagePattern) (hs : HandshakeState),
      (preMessagesResp cs b l hs).s = hs.s ∧
      (preMessagesResp cs b l hs).e = hs.e ∧
      (preMessagesResp cs b l hs).rs = hs.rs ∧
      (preMessagesResp cs b l hs).re = hs.re ∧
      (preMessagesResp cs b l hs).messagePatterns = hs.messagePatterns ∧
      (preMessagesResp cs b l hs).shouldWrite = hs.shouldWrite ∧
      (preMessagesResp cs b l hs).msgIdx = hs.msgIdx := by
  intro l
  induction l with
  | nil => exact fun hs => ⟨rfl, rfl, rfl, rfl, rfl, rfl, rfl⟩
  | cons m l ihl =>
    intro hs
    cases m <;> cases b <;> simp only [preMessagesResp] <;> exact ihl _

/-- The pre-message loops preserve the embedded cipher state. -/
theorem preMessagesInit_cst (cs : CipherSuite) (b : Bool) :
    ∀ (l : List MessagePattern) (hs : HandshakeState),
      (preMessagesInit cs b l hs).ss.cst = hs.ss.cst := by
  intro l
  induction l with
  | nil => exact fun hs => rfl
  | cons m l ihl =>
    intro hs
    cases m <;> cases b <;> simp only [preMessagesInit] <;> exact ihl _

/-- The pre-message loops preserve the embedded cipher state. -/
theorem preMessagesResp_cst (cs : CipherSuite) (b : Bool) :
    ∀ (l : List MessagePattern) (hs : HandshakeState),
      (preMessagesResp cs b l hs).ss.cst = hs.ss.cst := by
  intro l
  induction l with
  | nil => exact fun hs => rfl
  | cons m l ihl =>
    intro hs
    cases m <;> cases b <;> simp only [preMessagesResp] <;> exact ihl _

/-- With consistent pre-message key material, the initiator-pre-message
loop mixes the same bytes on both sides. -/
theorem premix_init_ss (cs : CipherSuite) :
    ∀ (l : List MessagePattern) (hsA hsB : HandshakeState),
      hsA.ss = hsB.ss →
      (MessagePattern.S ∈ l → hsA.s.Public = hsB.rs) →
      (MessagePattern.E ∈ l → hsA.e.Public = hsB.re) →
      (preMessagesInit cs true l hsA).ss = (preMessagesInit cs false l hsB).ss := by
  intro l
  induction l with
  | nil => exact fun hsA hsB h _ _ => h
  | cons m l ihl =>
    intro hsA hsB h hS hE
    cases m with
    | S =>
      simp only [preMessagesInit]
      refine ihl _ _ ?_ ?_ ?_
      · show hsA.ss.MixHash cs hsA.s.Public = hsB.ss.MixHash cs hsB.rs
        rw [h, hS (List.mem_cons_self _ _)]
      · intro hm
        exact hS (List.mem_cons_of_mem _ hm)
      · intro hm
        exact hE (List.mem_cons_of_mem _ hm)
    | E =>
      simp only [preMessagesInit]
      refine ihl _ _ ?_ ?_ ?_
      · show hsA.ss.MixHash cs hsA.e.Public = hsB.ss.MixHash cs hsB.re
        rw [h, hE (List.mem_cons_self _ _)]
      · intro hm
        exact hS (List.mem_cons_of_mem _ hm)
      · intro hm
        exact hE (List.mem_cons_of_mem _ hm)
    | DHEE =>
      simp only [preMessagesInit]
      exact ihl _ _ h (fun hm => hS (List.mem_cons_of_mem _ hm))
        (fun hm => hE (List.mem_cons_of_mem _ hm))
    | DHES =>
      simp only [preMessagesInit]
      exact ihl _ _ h (fun hm => hS (List.mem_cons_of_mem _ hm))
        (fun hm => hE (List.mem_cons_of_mem _ hm))
    | DHSE =>
      simp only [preMessagesInit]
      exact ihl _ _ h (fun hm => hS (List.mem_cons_of_mem _ hm))
        (fun hm => hE (List.mem_cons_of_mem _ hm))
    | DHSS =>
      simp only [preMessagesInit]
      exact ihl _ _ h (fun hm => hS (List.mem_cons_of_mem _ hm))
        (fun hm => hE (List.mem_cons_of_mem _ hm))

/-- With consistent pre-message key material, the responder-pre-message
loop mixes the same bytes on both sides. -/
theorem premix_resp_ss (cs : CipherSuite) :
    ∀ (l : List MessagePattern) (hsA hsB : HandshakeState),
      hsA.ss = hsB.ss →
      (MessagePattern.S ∈ l → hsA.rs = hsB.s.Public) →
      (MessagePattern.E ∈ l → hsA.re = hsB.e.Public) →
      (preMessagesResp cs true l hsA).ss = (preMessagesResp cs false l hsB).ss := by
  intro l
  induction l with
  | nil => exact fun hsA hsB h _ _ => h
  | cons m l ihl =>
    intro hsA hsB h hS hE
    cases m with
    | S =>
      simp only [preMessagesResp]
      refine ihl _ _ ?_ ?_ ?_
      · show hsA.ss.MixHash cs hsA.rs = hsB.ss.MixHash cs hsB.s.Public
        rw [h, hS (List.mem_cons_self _ _)]
      · intro hm
        exact hS (List.mem_cons_of_mem _ hm)
      · intro hm
        exact hE (List.mem_cons_of_mem _ hm)
    | E =>
      simp only [preMessagesResp]
      refine ihl _ _ ?_ ?_ ?_
      · show hsA.ss.MixHash cs hsA.re = hsB.ss.MixHash cs hsB.e.Public
        rw [h, hE (List.mem_cons_self _ _)]
      · intro hm
        exact hS (List.mem_cons_of_mem _ hm)
      · intro hm
        exact hE (List.mem_cons_of_mem _ hm)
    | DHEE =>
      simp only [preMessagesResp]
      exact ihl _ _ h (fun hm => hS (List.mem_cons_of_mem _ hm))
        (fun hm => hE (List.mem_cons_of_mem _ hm))
    | DHES =>
      simp only [preMessagesResp]
      exact ihl _ _ h (fun hm => hS (List.mem_cons_of_mem _ hm))
        (fun hm => hE (List.mem_cons_of_mem _ hm))
    | DHSE =>
      simp only [preMessagesResp]
      exact ihl _ _ h (fun hm => hS (List.mem_cons_of_mem _ hm))
        (fun hm => hE (List.mem_cons_of_mem _ hm))
    | DHSS =>
      simp only [preMessagesResp]
      exact ihl _ _ h (fun hm => hS (List.mem_cons_of_mem _ hm))
        (fun hm => hE (List.mem_cons_of_mem _ hm))

/-- The non-symmetric fields of a fresh handshake state come straight from
the configuration. -/
theorem newHS_fields (cs : CipherSuite) (c : Config) :
    (NewHandshakeState cs c).s = c.StaticKeypair ∧
    (NewHandshakeState cs c).e = c.EphemeralKeypair ∧
    (NewHandshakeState cs c).rs = c.PeerStatic ∧
    (NewHandshakeState cs c).re = c.PeerEphemeral ∧
    (NewHandshakeState cs c).messagePatterns = c.Pattern.Messages ∧
    (NewHandshakeState cs c).shouldWrite = c.Initiator ∧
    (NewHandshakeState cs c).msgIdx = 0 := by
  unfold NewHandshakeState
  have h1 := preMessagesResp_fields cs c.Initiator c.Pattern.ResponderPreMessages
  have h2 := preMessagesInit_fields cs c.Initiator c.Pattern.InitiatorPreMessages
  refine ⟨?_, ?_, ?_, ?_, ?_, ?_, ?_⟩
  · rw [(h1 _).1, (h2 _).1]
  · rw [(h1 _).2.1, (h2 _).2.1]
  · rw [(h1 _).2.2.1, (h2 _).2.2.1]
  · rw [(h1 _).2.2.2.1, (h2 _).2.2.2.1]
  · rw [(h1 _).2.2.2.2.1, (h2 _).2.2.2.2.1]
  · rw [(h1 _).2.2.2.2.2.1, (h2 _).2.2.2.2.2.1]
  · rw [(h1 _).2.2.2.2.2.2, (h2 _).2.2.2.2.2.2]

/-- The embedded cipher state of a fresh handshake state is the zero
cipher state. -/
theorem newHS_cst (cs : CipherSuite) (c : Config) :
    (NewHandshakeState cs c).ss.cst = CipherState.zero := by
  unfold NewHandshakeState
  rw [preMessagesResp_cst, preMessagesInit_cst]
  simp only
  split <;> rfl

/-- The knowledge state of a fresh handshake pair: each side owns the
statics and ephemerals its configuration supplies, and knows exactly the
remote keys announced by the pre-messages. -/
def initialKState (pat : HandshakePattern) (sA sB eA eB : Bool) : KState :=
  { wS := sA, wE := eA,
    wRe := decide (MessagePattern.E ∈ pat.ResponderPreMessages),
    wRs := decide (MessagePattern.S ∈ pat.ResponderPreMessages),
    rS := sB, rE := eB,
    rRe := decide (MessagePattern.E ∈ pat.InitiatorPreMessages),
    rRs := decide (MessagePattern.S ∈ pat.InitiatorPreMessages) }

/-- A matching pair of initiator/responder configurations: same pattern,
prologue and PSK, valid statics and ephemerals where the flags say so, and
pre-message keys consistent between the two sides (each `PeerStatic` or
`PeerEphemeral` is exactly the other side's public key when the
corresponding pre-message is declared, and empty otherwise for the
statics). -/
structure ConfigsMatch (cs : CipherSuite) (Valid : DHKey → Prop)
    (pat : HandshakePattern) (ca cb : Config) (sA sB eA eB : Bool) : Prop where
  initA : ca.Initiator = true
  initB : cb.Initiator = false
  patA : ca.Pattern = pat
  patB : cb.Pattern = pat
  prologue : ca.Prologue = cb.Prologue
  psk : ca.PresharedKey = cb.PresharedKey
  statA : sA = true → Valid ca.StaticKeypair ∧ ca.StaticKeypair.Public.length = cs.DHLen
  statB : sB = true → Valid cb.StaticKeypair ∧ cb.StaticKeypair.Public.length = cs.DHLen
  ephA : eA = true → Valid ca.EphemeralKeypair ∧ ca.EphemeralKeypair.Public.length = cs.DHLen
  ephB : eB = true → Valid cb.EphemeralKeypair ∧ cb.EphemeralKeypair.Public.length = cs.DHLen
  preSinit : MessagePattern.S ∈ pat.InitiatorPreMessages →
    sA = true ∧ cb.PeerStatic = ca.StaticKeypair.Public
  preSinitN : MessagePattern.S ∉ pat.InitiatorPreMessages → cb.PeerStatic = []
  preSresp : MessagePattern.S ∈ pat.ResponderPreMessages →
    sB = true ∧ ca.PeerStatic = cb.StaticKeypair.Public
  preSrespN : MessagePattern.S ∉ pat.ResponderPreMessages → ca.PeerStatic = []
  preEinit : MessagePattern.E ∈ pat.InitiatorPreMessages →
    eA = true ∧ cb.PeerEphemeral = ca.EphemeralKeypair.Public
  preEresp : MessagePattern.E ∈ pat.ResponderPreMessages →
    eB = true ∧ ca.PeerEphemeral = cb.EphemeralKeypair.Public

/-- Two fresh handshake states built from matching configurations are
coupled under the initial knowledge state. -/
theorem init_coupled (cs : CipherSuite) (Valid : DHKey → Prop)
    (pat : HandshakePattern) (ca cb : Config) (sA sB eA eB : Bool)
    (M : ConfigsMatch cs Valid pat ca cb sA sB eA eB) :
    TCoupled cs Valid (initialKState pat sA sB eA eB)
      (NewHandshakeState cs ca) (NewHandshakeState cs cb) := by
  have hfA := newHS_fields cs ca
  have hfB := newHS_fields cs cb
  refine ⟨?_, ?_, ?_⟩
  · unfold NewHandshakeState
    rw [M.initA, M.initB, M.patA, M.patB, M.prologue, M.psk]
    refine premix_resp_ss cs _ _ _ ?_ ?_ ?_
    · refine premix_init_ss cs _ _ _ rfl ?_ ?_
      · intro hm
        show ca.StaticKeypair.Public = cb.PeerStatic
        exact (M.preSinit hm).2.symm
      · intro hm
        show ca.EphemeralKeypair.Public = cb.PeerEphemeral
        exact (M.preEinit hm).2.symm
    · intro hm
      rw [(preMessagesInit_fields cs true _ _).2.2.1,
        (preMessagesInit_fields cs false _ _).1]
      show ca.PeerStatic = cb.StaticKeypair.Public
      exact (M.preSresp hm).2
    · intro hm
      rw [(preMessagesInit_fields cs true _ _).2.2.2.1,
        (preMessagesInit_fields cs false _ _).2.1]
      show ca.PeerEphemeral = cb.EphemeralKeypair.Public
      exact (M.preEresp hm).2
  · rw [newHS_cst]
    rfl
  · refine
      { wS := fun h => ?_, wE := fun h => ?_, wRe := fun h => ?_, wRs := fun h => ?_,
        wRsN := fun h => ?_, rS := fun h => ?_, rE := fun h => ?_, rRe := fun h => ?_,
        rRs := fun h => ?_, rRsN := fun h => ?_ }
    · rw [hfA.1]
      exact M.statA h
    · rw [hfA.2.1]
      exact M.ephA h
    · rw [hfA.2.2.2.1, hfB.2.1]
      exact (M.preEresp (of_decide_eq_true h)).2
    · rw [hfA.2.2.1, hfB.1]
      exact (M.preSresp (of_decide_eq_true h)).2
    · rw [hfA.2.2.1]
      exact M.preSrespN (of_decide_eq_false h)
    · rw [hfB.1]
      exact M.statB h
    · rw [hfB.2.1]
      exact M.ephB h
    · rw [hfB.2.2.2.1, hfA.2.1]
      exact (M.preEinit (of_decide_eq_true h)).2
    · rw [hfB.2.2.1, hfA.1]
      exact (M.preSinit (of_decide_eq_true h)).2
    · rw [hfB.2.2.1]
      exact M.preSinitN (of_decide_eq_false h)

/-- C1 (amended): for every handshake pattern and every matching pair of
initiator/responder configurations (same suite, pattern, prologue and PSK,
consistent pre-message keys, well-formed token sequence), alternately
calling `WriteMessage` on one fresh `HandshakeState` and `ReadMessage` on
the other until the pattern is exhausted succeeds, and at completion both
peers hold byte-identical `h` and `ck` and the two `CipherState` pairs
returned by `Split` are identical between the peers, in the same order:
the initiator's first returned key equals the responder's first, and
likewise the second — there is no role-based swap. -/
theorem c1_handshake_agreement (cs : CipherSuite) (Valid : DHKey → Prop)
    (G : GoodSuite cs Valid) (pat : HandshakePattern) (ca cb : Config)
    (sA sB eA eB : Bool)
    (M : ConfigsMatch cs Valid pat ca cb sA sB eA eB)
    (hwf : (wfMsgs pat.Messages (initialKState pat sA sB eA eB)).isSome = true)
    (payloads : List Bytes) (hne : payloads ≠ [])
    (hlen : payloads.length = pat.Messages.length)
    (hpay : ∀ p ∈ payloads, p.length ≤ MaxMsgLen) :
    ∃ Wf Rf sp,
      runAll cs payloads (NewHandshakeState cs ca) (NewHandshakeState cs cb) =
        some (Wf, Rf, some sp, some sp, payloads) ∧
      Wf.ss.h = Rf.ss.h ∧ Wf.ss.ck = Rf.ss.ck := by
  obtain ⟨Wf, Rf, sp, hrun, hss⟩ :=
    run_sim cs Valid G pat.Messages payloads 0 (initialKState pat sA sB eA eB)
      (NewHandshakeState cs ca) (NewHandshakeState cs cb)
      (init_coupled cs Valid pat ca cb sA sB eA eB M)
      (by rw [(newHS_fields cs ca).2.2.2.2.2.1, M.initA])
      (by rw [(newHS_fields cs cb).2.2.2.2.2.1, M.initB])
      ((newHS_fields cs ca).2.2.2.2.2.2)
      ((newHS_fields cs cb).2.2.2.2.2.2)
      (by rw [(newHS_fields cs ca).2.2.2.2.1, M.patA])
      (by rw [(newHS_fields cs cb).2.2.2.2.1, M.patB])
      (by omega)
      hne hpay
      (by simpa using hwf)
  exact ⟨Wf, Rf, sp, hrun, by rw [hss], by rw [hss]⟩

/-- Checker for the C1 counterexample: in a complete NN handshake over the
toy suite, both peers return the same `Split` pair in the same order
(first key equals first key, second equals second), and the initiator's
first key differs from the responder's second — the pairs are not
swapped. -/
def c1CheckSameNotSwapped : Bool :=
  match runAll toySuite [[1], [2]] (NewHandshakeState toySuite cfgNN_A)
      (NewHandshakeState toySuite cfgNN_B) with
  | some (_, _, some spW, some spR, _) =>
    decide (spW.1.k = spR.1.k) && decide (spW.2.k = spR.2.k) &&
      decide (¬spW.1.k = spR.2.k)
  | _ => false

set_option maxRecDepth 100000 in
/-- Counterexample for C1: the concrete NN handshake over the toy suite
completes with the two peers' `Split` pairs identical in the same order,
and with the first returned key different from the second, so the claimed
swap (initiator's first equals responder's second) is false. -/
theorem c1_counterexample : c1CheckSameNotSwapped = true := by decide

/-- The toy cipher suite satisfies the functional cipher-suite contract
relative to `toyValid`. -/
theorem goodSuite_toy : GoodSuite toySuite toyValid := by
  refine ⟨by decide, ?_, ?_, ?_, ?_, ?_⟩
  · intro x y hx hy
    show toyDH x.Private y.Public = toyDH y.Private x.Public
    unfold toyValid at hx hy
    rw [← hx, ← hy]
    unfold toyDH
    rw [Nat.add_comm]
  · intro n
    show toyValid (toyGen n)
    rfl
  · intro n
    rfl
  · intro key n ad pt
    show (toyCipher key).Decrypt n ad ((toyCipher key).Encrypt n ad pt) = some pt
    simp only [toyCipher]
    have hlen : (pt ++ toyTag key n ad pt).length = pt.length + 16 := by
      simp [toyTag]
    have hsub : (pt ++ toyTag key n ad pt).length - 16 = pt.length := by
      rw [hlen]
      omega
    rw [if_neg (by rw [hlen]; omega), hsub, List.drop_left, List.take_left,
      if_pos rfl]
  · intro key n ad pt
    show ((toyCipher key).Encrypt n ad pt).length = pt.length + 16
    simp [toyCipher, toyTag]

/-- The XX handshake pattern. -/
def xxPattern : HandshakePattern :=
  { Name := [88, 88], InitiatorPreMessages := [], ResponderPreMessages := [],
    Messages := [[.E], [.E, .DHEE, .S, .DHSE], [.S, .DHES]] }

/-- Initiator configuration for XX over the toy suite. -/
def cfgXX_A : Config :=
  { Random := 100, Pattern := xxPattern, Initiator := true, Prologue := [7],
    PresharedKey := [], StaticKeypair := ⟨[3, 4], [3, 4]⟩,
    EphemeralKeypair := ⟨[], []⟩, PeerStatic := [], PeerEphemeral := [] }

/-- Responder configuration matching `cfgXX_A`. -/
def cfgXX_B : Config :=
  { cfgXX_A with Random := 200, Initiator := false, StaticKeypair := ⟨[5, 6], [5, 6]⟩ }

/-- The XX configurations over the toy suite match. -/
theorem configsMatch_xx :
    ConfigsMatch toySuite toyValid xxPattern cfgXX_A cfgXX_B true true false false := by
  refine ⟨rfl, rfl, rfl, rfl, rfl, rfl, ?_, ?_, ?_, ?_, ?_, ?_, ?_, ?_, ?_, ?_⟩
  · intro _
    exact ⟨rfl, rfl⟩
  · intro _
    exact ⟨rfl, rfl⟩
  · intro h
    exact absurd h (by decide)
  · intro h
    exact absurd h (by decide)
  · intro hm
    exact absurd hm (by decide)
  · intro _
    rfl
  · intro hm
    exact absurd hm (by decide)
  · intro _
    rfl
  · intro hm
    exact absurd hm (by decide)
  · intro hm
    exact absurd hm (by decide)

set_option maxRecDepth 100000 in
/-- Witness for C1 at the XX pattern over the toy suite: the full
three-message handshake with payloads `[1]`, `[2]`, `[3]` completes with
identical `h`, `ck` and identical `Split` pairs on both peers. -/
theorem c1_handshake_agreement_witness :
    ∃ Wf Rf sp,
      runAll toySuite [[1], [2], [3]] (NewHandshakeState toySuite cfgXX_A)
        (NewHandshakeState toySuite cfgXX_B) =
        some (Wf, Rf, some sp, some sp, [[1], [2], [3]]) ∧
      Wf.ss.h = Rf.ss.h ∧ Wf.ss.ck = Rf.ss.ck := by
  exact c1_handshake_agreement toySuite toyValid goodSuite_toy xxPattern
    cfgXX_A cfgXX_B true true false false configsMatch_xx (by decide)
    [[1], [2], [3]] (by decide) (by decide) (by decide)
